import Mathlib

/-!
Verification development for `apply_custom_changes.py`: an ISO-6709-style
coordinate parser (`parse_iso6709`), a decimal-year conversion
(`to_year_fraction`), and an XML pipeline (`modify_positions_xml`) that
annotates `Position` elements with `MagneticVariation` and `Rotation`
attributes.

Modelling conventions:
* Python floats are idealised as rationals (`ℚ`).
* The Python regular expression (`re.fullmatch` with greedy quantifiers and
  optional groups) is embedded as a list-of-successes matcher whose
  alternatives are enumerated in exactly the regex engine's backtracking
  preference order (quantifier: longer first; optional group: present
  first); the reported match is the head of the list, i.e. the first match
  found in that depth-first order.  Captured groups are kept as raw
  character strings, as `match.group` returns them; `float` conversion
  happens at decode time, as in the source.
* Python exceptions are values of type `PyErr` (a `ValueError` carries the
  formatted message; passing a non-string such as `None` to `re.fullmatch`
  raises a `TypeError`).
-/

/-- Python exception values observable from the pipeline. -/
inductive PyErr where
  | valueError (msg : String)
  | typeError (msg : String)
deriving DecidableEq, Repr

instance exceptDecEq {ε α : Type} [DecidableEq ε] [DecidableEq α] : DecidableEq (Except ε α) :=
  fun x y =>
    match x, y with
    | .error e, .error f =>
        if h : e = f then .isTrue (by rw [h]) else
          .isFalse (by intro hc; injection hc; exact h (by assumption))
    | .error _, .ok _ => .isFalse (by intro hc; exact Except.noConfusion hc)
    | .ok _, .error _ => .isFalse (by intro hc; exact Except.noConfusion hc)
    | .ok a, .ok b =>
        if h : a = b then .isTrue (by rw [h]) else
          .isFalse (by intro hc; injection hc; exact h (by assumption))

/-- A captured numeric field: its integer digits and, when a fractional
part was matched, the digits after the decimal point.  The raw group
string is `ds ++ "." ++ fr` when the fraction is present, else `ds`. -/
structure Cap where
  ds : List Char
  fr : Option (List Char)
deriving DecidableEq, Repr

/-- Numeric value of a digit string, e.g. `['1','2'] ↦ 12`. -/
def natOfDigits (ds : List Char) : ℕ :=
  ds.foldl (fun a c => 10 * a + (c.toNat - 48)) 0

/-- Value of a fractional digit string, e.g. `['2','5'] ↦ 25/100`. -/
def fracVal (ds : List Char) : ℚ :=
  (natOfDigits ds : ℚ) / ((10 : ℚ) ^ ds.length)

/-- `float` applied to a captured group, e.g. `float("12.34") = 1234/100`. -/
def pyFloat (f : Cap) : ℚ :=
  (natOfDigits f.ds : ℚ) + (match f.fr with | none => 0 | some fs => fracVal fs)

/-- Matcher for `[+-]`; `true` records a minus sign. -/
def pSign (cs : List Char) : List (Bool × List Char) :=
  match cs with
  | [] => []
  | c :: r => if c = '+' then [(false, r)] else if c = '-' then [(true, r)] else []

/-- Matcher for `\d{w}` (at most one way to match). -/
def pDigitsN (w : ℕ) (cs : List Char) : List (List Char × List Char) :=
  if (cs.take w).length = w ∧ (cs.take w).all (fun c => c.isDigit) = true then
    [(cs.take w, cs.drop w)]
  else []

/-- All ways to split a digit run for a greedy `\d+`, longest first: the
entry for `n` keeps `n` digits and returns the rest to the input. -/
def descSplits (run tail : List Char) : ℕ → List (List Char × List Char)
  | 0 => []
  | n + 1 => (run.take (n + 1), run.drop (n + 1) ++ tail) :: descSplits run tail n

/-- The match alternatives for `\.\d+` (dot then a greedy digit run),
longest digit prefix first. -/
def pDotDigits (cs : List Char) : List (List Char × List Char) :=
  match cs with
  | [] => []
  | c :: r =>
      if c = '.' then
        descSplits (r.takeWhile (fun c => c.isDigit)) (r.dropWhile (fun c => c.isDigit))
          (r.takeWhile (fun c => c.isDigit)).length
      else []

/-- Matcher for the optional fraction group `(?:\.\d+)?`: fraction present
(with the greedy `\d+` trying longer digit prefixes first), then absent. -/
def pFrac (cs : List Char) : List (Option (List Char) × List Char) :=
  (pDotDigits cs).map (fun p => (some p.1, p.2)) ++ [(none, cs)]

/-- Matcher for a field `\d{w}(?:\.\d+)?`. -/
def pField (w : ℕ) (cs : List Char) : List (Cap × List Char) :=
  (pDigitsN w cs).flatMap (fun dr => (pFrac dr.2).map (fun fo => (⟨dr.1, fo.1⟩, fo.2)))

/-- Matcher for an optional field `(?:\d{w}(?:\.\d+)?)?`: present first. -/
def pOptField (w : ℕ) (cs : List Char) : List (Option Cap × List Char) :=
  (pField w cs).map (fun p => (some p.1, p.2)) ++ [(none, cs)]

/-- Captured groups of one coordinate axis: sign, degrees, optional
minutes, optional seconds. -/
structure AxisCap where
  negSign : Bool
  deg : Cap
  minv : Option Cap
  secv : Option Cap
deriving DecidableEq, Repr

/-- Matcher for one axis:
`[+-]\d{w}(?:\.\d+)?(?:\d{2}(?:\.\d+)?)?(?:\d{2}(?:\.\d+)?)?`. -/
def pAxis (w : ℕ) (cs : List Char) : List (AxisCap × List Char) :=
  (pSign cs).flatMap fun sr =>
  (pField w sr.2).flatMap fun dr =>
  (pOptField 2 dr.2).flatMap fun mr =>
  (pOptField 2 mr.2).map fun qr =>
  (⟨sr.1, dr.1, mr.1, qr.1⟩, qr.2)

/-- Matcher for the optional altitude group `(?:[+-]\d+(?:\.\d+)?)?`:
present (sign and digits) first, then absent. -/
def pAlt (cs : List Char) : List (Option (Bool × Cap) × List Char) :=
  ((pSign cs).flatMap fun sr =>
    (descSplits (sr.2.takeWhile (fun c => c.isDigit)) (sr.2.dropWhile (fun c => c.isDigit))
        (sr.2.takeWhile (fun c => c.isDigit)).length).flatMap fun dr =>
    (pFrac dr.2).map fun fo =>
      ((some (sr.1, (⟨dr.1, fo.1⟩ : Cap)) : Option (Bool × Cap)), fo.2))
  ++ [(none, cs)]

/-- All full matches of the coordinate pattern against `cs`, in the regex
engine's backtracking preference order. -/
def reMatches (cs : List Char) : List (AxisCap × AxisCap × Option (Bool × Cap)) :=
  (pAxis 2 cs).flatMap fun la =>
  (pAxis 3 la.2).flatMap fun lo =>
  (pAlt lo.2).flatMap fun al =>
  if al.2 = [] then [(la.1, lo.1, al.1)] else []

/-- `re.fullmatch(pattern, s)`: the first full match in preference order,
or `none`. -/
def re_fullmatch (cs : List Char) : Option (AxisCap × AxisCap × Option (Bool × Cap)) :=
  (reMatches cs).head?

/-- Decoding of one axis from its captured groups, lines 60–89 of the
source: sign times (degrees [+ minutes/60 [+ seconds/3600]]). -/
def decodeAxis (a : AxisCap) : ℚ :=
  let sign : ℚ := if a.negSign then -1 else 1
  match a.minv with
  | none => sign * pyFloat a.deg
  | some m =>
    match a.secv with
    | none => sign * (pyFloat a.deg + pyFloat m / 60)
    | some s => sign * (pyFloat a.deg + pyFloat m / 60 + pyFloat s / 3600)

/-- `float` applied to the whole altitude group (sign included). -/
def decodeAlt (al : Bool × Cap) : ℚ :=
  (if al.1 then (-1 : ℚ) else 1) * pyFloat al.2

/-- `parse_iso6709` (lines 28–91): match the pattern against the whole
string; on failure raise `ValueError` with a message embedding the raw
string; on success decode latitude, longitude and optional altitude. -/
def parse_iso6709 (s : String) : Except PyErr (ℚ × ℚ × Option ℚ) :=
  match re_fullmatch s.toList with
  | none => .error (.valueError ("Invalid ISO 6709 coordinate format: " ++ s))
  | some (la, lo, al) => .ok (decodeAxis la, decodeAxis lo, al.map decodeAlt)

/-! ## The coordinate grammar, transliterated from the specification

The specification's grammar block:
`coordinate := lat_sign lat_deg[2] lat_min[2]? lat_sec[2]?
               lon_sign lon_deg[3] lon_min[2]? lon_sec[2]? alt?`,
with every `*_deg`/`*_min`/`*_sec` a fixed-width digit group optionally
followed by `'.' digits`, and `alt := sign digits ('.' digits)?`.
Below it is written as a declarative decomposition predicate, and proved
equivalent to success of the embedded regex matcher. -/

/-- Every character is a decimal digit. -/
def AllDigits (l : List Char) : Prop := ∀ c ∈ l, c.isDigit = true

/-- A fractional part: a dot followed by at least one digit. -/
def FracStr (fr : List Char) : Prop :=
  ∃ ds, fr = '.' :: ds ∧ ds ≠ [] ∧ AllDigits ds

/-- A numeric field of width `w`: exactly `w` digits, optionally followed
by a fractional part. -/
def CapStr (w : ℕ) (f : List Char) : Prop :=
  ∃ ds fr, f = ds ++ fr ∧ ds.length = w ∧ AllDigits ds ∧ (fr = [] ∨ FracStr fr)

/-- An optional field: absent, or a width-`w` field. -/
def OptCapStr (w : ℕ) (f : List Char) : Prop := f = [] ∨ CapStr w f

/-- A mandatory sign character. -/
def SignChar (c : Char) : Prop := c = '+' ∨ c = '-'

/-- One axis: sign, degree field of width `w`, then optional minutes and
seconds fields of width 2. -/
def AxisStr (w : ℕ) (a : List Char) : Prop :=
  ∃ sg f1 f2 f3, a = sg :: (f1 ++ (f2 ++ f3)) ∧ SignChar sg ∧
    CapStr w f1 ∧ OptCapStr 2 f2 ∧ OptCapStr 2 f3

/-- The optional altitude: absent, or sign, a nonempty digit run, and an
optional fractional part. -/
def AltStr (al : List Char) : Prop :=
  al = [] ∨ ∃ sg ds fr, al = sg :: (ds ++ fr) ∧ SignChar sg ∧ ds ≠ [] ∧
    AllDigits ds ∧ (fr = [] ∨ FracStr fr)

/-- The whole-string coordinate grammar: latitude axis (2-digit degrees),
longitude axis (3-digit degrees), optional altitude, nothing else. -/
def Grammar (s : List Char) : Prop :=
  ∃ a b c, s = a ++ (b ++ c) ∧ AxisStr 2 a ∧ AxisStr 3 b ∧ AltStr c

/-! ### Helper lemmas about digit runs -/

lemma takeWhile_digits_append {l r : List Char} (h : AllDigits l) :
    (l ++ r).takeWhile (fun c => c.isDigit) = l ++ r.takeWhile (fun c => c.isDigit) := by
  induction l with
  | nil => simp
  | cons c t ih =>
      have hc : c.isDigit = true := h c (by simp)
      have ht : AllDigits t := fun x hx => h x (by simp [hx])
      simp [List.takeWhile, hc, ih ht]

lemma dropWhile_digits_append {l r : List Char} (h : AllDigits l) :
    (l ++ r).dropWhile (fun c => c.isDigit) = r.dropWhile (fun c => c.isDigit) := by
  induction l with
  | nil => simp
  | cons c t ih =>
      have hc : c.isDigit = true := h c (by simp)
      have ht : AllDigits t := fun x hx => h x (by simp [hx])
      simp [List.dropWhile, hc, ih ht]

lemma descSplits_sound {run tail pre rest : List Char} :
    ∀ {n : ℕ}, (pre, rest) ∈ descSplits run tail n →
      ∃ k, 1 ≤ k ∧ k ≤ n ∧ pre = run.take k ∧ rest = run.drop k ++ tail := by
  intro n
  induction n with
  | zero => intro h; simp [descSplits] at h
  | succ m ih =>
      intro h
      rcases List.mem_cons.mp h with h1 | h2
      · injection h1 with e1 e2
        exact ⟨m + 1, by omega, le_rfl, e1, e2⟩
      · rcases ih h2 with ⟨k, hk1, hk2, hk3, hk4⟩
        exact ⟨k, hk1, by omega, hk3, hk4⟩

lemma descSplits_complete (run tail : List Char) {k : ℕ} (h1 : 1 ≤ k) :
    ∀ {n : ℕ}, k ≤ n → (run.take k, run.drop k ++ tail) ∈ descSplits run tail n := by
  intro n
  induction n with
  | zero => omega
  | succ m ih =>
      intro hk
      rcases Nat.lt_or_ge k (m + 1) with hlt | hge
      · exact List.mem_cons.mpr (.inr (ih (by omega)))
      · have : k = m + 1 := by omega
        subst this
        exact List.mem_cons.mpr (.inl rfl)

/-! ### Soundness: every matcher alternative consumes a well-formed piece -/

lemma pSign_sound {cs r : List Char} {b : Bool} (h : (b, r) ∈ pSign cs) :
    cs = (if b then '-' else '+') :: r := by
  match cs with
  | [] => simp [pSign] at h
  | c :: t =>
      simp only [pSign] at h
      split at h
      · rcases List.mem_singleton.mp h with h'
        injection h' with hb hr
        subst hb; subst hr; simp [*]
      · split at h
        · rcases List.mem_singleton.mp h with h'
          injection h' with hb hr
          subst hb; subst hr; simp [*]
        · simp at h

lemma pSign_sound' {cs r : List Char} {b : Bool} (h : (b, r) ∈ pSign cs) :
    ∃ sg, SignChar sg ∧ cs = sg :: r := by
  refine ⟨if b then '-' else '+', ?_, pSign_sound h⟩
  cases b <;> simp [SignChar]

lemma pDigitsN_sound {w : ℕ} {cs ds r : List Char} (h : (ds, r) ∈ pDigitsN w cs) :
    cs = ds ++ r ∧ ds.length = w ∧ AllDigits ds := by
  simp only [pDigitsN] at h
  split at h
  · rcases List.mem_singleton.mp h with h'
    injection h' with h1 h2
    subst h1; subst h2
    rename_i hcond
    exact ⟨(List.take_append_drop w cs).symm, hcond.1,
      fun c hc => by have := List.all_eq_true.mp hcond.2 c hc; simpa using this⟩
  · simp at h

lemma pDotDigits_sound {cs pre rest : List Char} (h : (pre, rest) ∈ pDotDigits cs) :
    pre ≠ [] ∧ AllDigits pre ∧ cs = '.' :: (pre ++ rest) := by
  match cs with
  | [] => simp [pDotDigits] at h
  | c :: t =>
      simp only [pDotDigits] at h
      split at h
      · rename_i hdot
        rcases descSplits_sound h with ⟨k, hk1, hk2, hk3, hk4⟩
        subst hdot
        refine ⟨?_, ?_, ?_⟩
        · rw [hk3]
          intro hnil
          have := List.length_take k (t.takeWhile (fun c => c.isDigit))
          rw [hnil] at this
          simp at this
          omega
        · rw [hk3]
          intro x hx
          exact List.mem_takeWhile_imp (List.mem_of_mem_take hx)
        · rw [hk3, hk4, ← List.append_assoc, List.take_append_drop,
            List.takeWhile_append_dropWhile]
      · simp at h

lemma pFrac_sound {cs rest : List Char} {fo : Option (List Char)}
    (h : (fo, rest) ∈ pFrac cs) :
    (fo = none ∧ rest = cs) ∨
      ∃ fs, fo = some fs ∧ fs ≠ [] ∧ AllDigits fs ∧ cs = '.' :: (fs ++ rest) := by
  simp only [pFrac, List.mem_append, List.mem_map, List.mem_singleton] at h
  rcases h with ⟨p, hp, heq⟩ | h
  · right
    rcases pDotDigits_sound hp with ⟨h1, h2, h3⟩
    injection heq with e1 e2
    exact ⟨p.1, e1.symm, h1, h2, by rw [← e2]; exact h3⟩
  · left
    injection h with e1 e2
    exact ⟨e1, e2⟩

lemma pField_sound {w : ℕ} {cs rest : List Char} {f : Cap}
    (h : (f, rest) ∈ pField w cs) : ∃ pre, cs = pre ++ rest ∧ CapStr w pre := by
  simp only [pField, List.mem_flatMap, List.mem_map] at h
  rcases h with ⟨dr, hdr, fo, hfo, heq⟩
  rcases pDigitsN_sound hdr with ⟨hcs, hlen, hdig⟩
  injection heq with e1 e2
  rcases pFrac_sound hfo with ⟨hn, hr⟩ | ⟨fs, hfs, hne, hfsd, hcs2⟩
  · refine ⟨dr.1, ?_, dr.1, [], by simp, hlen, hdig, .inl rfl⟩
    rw [hcs, hr.symm.trans e2]
  · refine ⟨dr.1 ++ ('.' :: fs), ?_, dr.1, '.' :: fs, rfl, hlen, hdig,
      .inr ⟨fs, rfl, hne, hfsd⟩⟩
    rw [hcs, hcs2, e2]
    simp

lemma pOptField_sound {w : ℕ} {cs rest : List Char} {fo : Option Cap}
    (h : (fo, rest) ∈ pOptField w cs) : ∃ pre, cs = pre ++ rest ∧ OptCapStr w pre := by
  simp only [pOptField, List.mem_append, List.mem_map, List.mem_singleton] at h
  rcases h with ⟨p, hp, heq⟩ | h
  · injection heq with e1 e2
    rcases pField_sound hp with ⟨pre, h1, h2⟩
    exact ⟨pre, by rw [← e2]; exact h1, .inr h2⟩
  · injection h with e1 e2
    exact ⟨[], by simp [e2], .inl rfl⟩

lemma pAxis_sound {w : ℕ} {cs rest : List Char} {a : AxisCap}
    (h : (a, rest) ∈ pAxis w cs) : ∃ pre, cs = pre ++ rest ∧ AxisStr w pre := by
  simp only [pAxis, List.mem_flatMap, List.mem_map] at h
  rcases h with ⟨sr, hsr, dr, hdr, mr, hmr, qr, hqr, heq⟩
  rcases pSign_sound' hsr with ⟨sg, hsg, hcs⟩
  rcases pField_sound hdr with ⟨p1, h1, hc1⟩
  rcases pOptField_sound hmr with ⟨p2, h2, hc2⟩
  rcases pOptField_sound hqr with ⟨p3, h3, hc3⟩
  injection heq with e1 e2
  refine ⟨sg :: (p1 ++ (p2 ++ p3)), ?_, sg, p1, p2, p3, rfl, hsg, hc1, hc2, hc3⟩
  rw [hcs, h1, h2, h3, e2]
  simp

lemma pAlt_sound {cs rest : List Char} {al : Option (Bool × Cap)}
    (h : (al, rest) ∈ pAlt cs) : ∃ pre, cs = pre ++ rest ∧ AltStr pre := by
  simp only [pAlt, List.mem_append, List.mem_flatMap, List.mem_map,
    List.mem_singleton] at h
  rcases h with ⟨sr, hsr, dr, hdr, fo, hfo, heq⟩ | h
  · obtain ⟨d1, d2⟩ := dr
    rcases pSign_sound' hsr with ⟨sg, hsg, hcs⟩
    rcases descSplits_sound hdr with ⟨k, hk1, hk3, hpre, hrest⟩
    injection heq with e1 e2
    have hdig : AllDigits d1 := by
      rw [hpre]
      intro x hx
      exact List.mem_takeWhile_imp (List.mem_of_mem_take hx)
    have hne : d1 ≠ [] := by
      rw [hpre]
      intro hnil
      have := List.length_take k (sr.2.takeWhile (fun c => c.isDigit))
      rw [hnil] at this
      simp at this
      omega
    have hsr2 : sr.2 = d1 ++ d2 := by
      rw [hpre, hrest, ← List.append_assoc, List.take_append_drop,
        List.takeWhile_append_dropWhile]
    rcases pFrac_sound hfo with ⟨hn, hr⟩ | ⟨fs, hfs, hfne, hfsd, hcs2⟩
    · have hd2 : d2 = rest := hr.symm.trans e2
      refine ⟨sg :: (d1 ++ []), ?_, .inr ⟨sg, d1, [], rfl, hsg, hne, hdig, .inl rfl⟩⟩
      rw [hcs, hsr2, hd2]
      simp
    · have hd2 : d2 = '.' :: (fs ++ rest) := by rw [← e2]; exact hcs2
      refine ⟨sg :: (d1 ++ ('.' :: fs)), ?_,
        .inr ⟨sg, d1, '.' :: fs, rfl, hsg, hne, hdig, .inr ⟨fs, rfl, hfne, hfsd⟩⟩⟩
      rw [hcs, hsr2, hd2]
      simp
  · injection h with e1 e2
    exact ⟨[], by simp [e2], .inl rfl⟩

/-- Soundness: a successful full match implies the string is in the
grammar. -/
lemma grammar_of_fullmatch {cs : List Char} {m : AxisCap × AxisCap × Option (Bool × Cap)}
    (h : re_fullmatch cs = some m) : Grammar cs := by
  have hmem : m ∈ reMatches cs := by
    unfold re_fullmatch at h
    exact List.mem_of_mem_head? h
  simp only [reMatches, List.mem_flatMap] at hmem
  rcases hmem with ⟨la, hla, lo, hlo, al, hal, hfin⟩
  have hal2 : al.2 = [] := by
    by_contra hne
    simp [hne] at hfin
  rcases pAxis_sound hla with ⟨a, ha1, ha2⟩
  rcases pAxis_sound hlo with ⟨b, hb1, hb2⟩
  rcases pAlt_sound hal with ⟨c, hc1, hc2⟩
  refine ⟨a, b, c, ?_, ha2, hb2, hc2⟩
  rw [ha1, hb1, hc1, hal2]
  simp

/-! ### Completeness: every grammar decomposition yields a match -/

lemma pSign_complete {sg : Char} (h : SignChar sg) (r : List Char) :
    ∃ b, (b, r) ∈ pSign (sg :: r) := by
  rcases h with h | h <;> subst h
  · exact ⟨false, by simp [pSign]⟩
  · exact ⟨true, by simp [pSign]⟩

lemma pDigitsN_complete {w : ℕ} {ds : List Char} (h1 : ds.length = w) (h2 : AllDigits ds)
    (r : List Char) : (ds, r) ∈ pDigitsN w (ds ++ r) := by
  have ht : (ds ++ r).take w = ds := by rw [← h1]; exact List.take_left ds r
  have hd : (ds ++ r).drop w = r := by rw [← h1]; exact List.drop_left ds r
  simp only [pDigitsN, ht, hd]
  rw [if_pos]
  · exact List.mem_singleton.mpr rfl
  · exact ⟨by rw [ht] at *; exact h1,
      List.all_eq_true.mpr (fun c hc => by exact h2 c hc)⟩

lemma pDotDigits_complete {fs : List Char} (h1 : fs ≠ []) (h2 : AllDigits fs) (r : List Char) :
    (fs, r) ∈ pDotDigits ('.' :: (fs ++ r)) := by
  simp only [pDotDigits, if_true]
  rw [takeWhile_digits_append h2, dropWhile_digits_append h2]
  have hk1 : 1 ≤ fs.length := by
    cases fs
    · simp at h1
    · simp
  have hk2 : fs.length ≤ (fs ++ r.takeWhile (fun c => c.isDigit)).length := by simp
  have hm := descSplits_complete (fs ++ r.takeWhile (fun c => c.isDigit))
    (r.dropWhile (fun c => c.isDigit)) hk1 hk2
  rw [List.take_left, List.drop_left, List.takeWhile_append_dropWhile] at hm
  exact hm

lemma pFrac_complete_none (cs : List Char) : ((none : Option (List Char)), cs) ∈ pFrac cs := by
  simp [pFrac]

lemma pFrac_complete_some {fs : List Char} (h1 : fs ≠ []) (h2 : AllDigits fs) (r : List Char) :
    (some fs, r) ∈ pFrac ('.' :: (fs ++ r)) := by
  simp only [pFrac, List.mem_append, List.mem_map]
  exact .inl ⟨(fs, r), pDotDigits_complete h1 h2 r, rfl⟩

lemma pField_complete {w : ℕ} {pre : List Char} (h : CapStr w pre) (r : List Char) :
    ∃ f, (f, r) ∈ pField w (pre ++ r) := by
  rcases h with ⟨ds, fr, hpre, hlen, hdig, hfr⟩
  subst hpre
  rcases hfr with rfl | ⟨fs, rfl, hne, hfsd⟩
  · refine ⟨⟨ds, none⟩, ?_⟩
    simp only [pField, List.mem_flatMap, List.mem_map, List.append_nil]
    exact ⟨(ds, r), pDigitsN_complete hlen hdig r, (none, r), pFrac_complete_none r, rfl⟩
  · refine ⟨⟨ds, some fs⟩, ?_⟩
    have hass : (ds ++ ('.' :: fs)) ++ r = ds ++ ('.' :: (fs ++ r)) := by simp
    rw [hass]
    simp only [pField, List.mem_flatMap, List.mem_map]
    exact ⟨(ds, '.' :: (fs ++ r)), pDigitsN_complete hlen hdig _,
      (some fs, r), pFrac_complete_some hne hfsd r, rfl⟩

lemma pOptField_complete {w : ℕ} {pre : List Char} (h : OptCapStr w pre) (r : List Char) :
    ∃ fo, (fo, r) ∈ pOptField w (pre ++ r) := by
  rcases h with rfl | h
  · exact ⟨none, by simp [pOptField]⟩
  · rcases pField_complete h r with ⟨f, hf⟩
    refine ⟨some f, ?_⟩
    simp only [pOptField, List.mem_append, List.mem_map]
    exact .inl ⟨(f, r), hf, rfl⟩

lemma pAxis_complete {w : ℕ} {pre : List Char} (h : AxisStr w pre) (r : List Char) :
    ∃ a, (a, r) ∈ pAxis w (pre ++ r) := by
  rcases h with ⟨sg, f1, f2, f3, hpre, hsg, h1, h2, h3⟩
  subst hpre
  have hass : (sg :: (f1 ++ (f2 ++ f3))) ++ r = sg :: (f1 ++ (f2 ++ (f3 ++ r))) := by simp
  rw [hass]
  rcases pSign_complete hsg (f1 ++ (f2 ++ (f3 ++ r))) with ⟨b, hb⟩
  rcases pField_complete h1 (f2 ++ (f3 ++ r)) with ⟨fd, hfd⟩
  rcases pOptField_complete h2 (f3 ++ r) with ⟨fm, hfm⟩
  rcases pOptField_complete h3 r with ⟨fq, hfq⟩
  refine ⟨⟨b, fd, fm, fq⟩, ?_⟩
  simp only [pAxis, List.mem_flatMap, List.mem_map]
  exact ⟨(b, f1 ++ (f2 ++ (f3 ++ r))), hb, (fd, f2 ++ (f3 ++ r)), hfd,
    (fm, f3 ++ r), hfm, (fq, r), hfq, rfl⟩

lemma pAlt_complete {pre : List Char} (h : AltStr pre) (r : List Char) :
    ∃ al, (al, r) ∈ pAlt (pre ++ r) := by
  rcases h with rfl | ⟨sg, ds, fr, hpre, hsg, hne, hdig, hfr⟩
  · exact ⟨none, by simp [pAlt]⟩
  · subst hpre
    have hk1 : 1 ≤ ds.length := by
      cases ds
      · simp at hne
      · simp
    rcases hfr with rfl | ⟨fs, rfl, hfne, hfsd⟩
    · have hass : (sg :: (ds ++ [])) ++ r = sg :: (ds ++ r) := by simp
      rw [hass]
      rcases pSign_complete hsg (ds ++ r) with ⟨b, hb⟩
      refine ⟨some (b, ⟨ds, none⟩), ?_⟩
      simp only [pAlt, List.mem_append, List.mem_flatMap, List.mem_map]
      refine .inl ⟨(b, ds ++ r), hb, (ds, r), ?_, (none, r), pFrac_complete_none r, rfl⟩
      dsimp only
      have hk2 : ds.length ≤ ((ds ++ r).takeWhile (fun c => c.isDigit)).length := by
        rw [takeWhile_digits_append hdig]
        simp
      have hm := descSplits_complete ((ds ++ r).takeWhile (fun c => c.isDigit))
        ((ds ++ r).dropWhile (fun c => c.isDigit)) hk1 hk2
      rw [takeWhile_digits_append hdig, dropWhile_digits_append hdig,
        List.take_left, List.drop_left, List.takeWhile_append_dropWhile] at hm
      rw [takeWhile_digits_append hdig, dropWhile_digits_append hdig]
      exact hm
    · have hass : (sg :: (ds ++ ('.' :: fs))) ++ r = sg :: (ds ++ ('.' :: (fs ++ r))) := by simp
      rw [hass]
      rcases pSign_complete hsg (ds ++ ('.' :: (fs ++ r))) with ⟨b, hb⟩
      refine ⟨some (b, ⟨ds, some fs⟩), ?_⟩
      simp only [pAlt, List.mem_append, List.mem_flatMap, List.mem_map]
      refine .inl ⟨(b, ds ++ ('.' :: (fs ++ r))), hb, (ds, '.' :: (fs ++ r)), ?_,
        (some fs, r), pFrac_complete_some hfne hfsd r, rfl⟩
      dsimp only
      have hdot : ('.' :: (fs ++ r)).takeWhile (fun c => c.isDigit) = [] := by
        simp [List.takeWhile]
      have hdot2 : ('.' :: (fs ++ r)).dropWhile (fun c => c.isDigit) = '.' :: (fs ++ r) := by
        simp [List.dropWhile]
      have hk2 : ds.length ≤ ((ds ++ ('.' :: (fs ++ r))).takeWhile (fun c => c.isDigit)).length := by
        rw [takeWhile_digits_append hdig, hdot]
        simp
      have hm := descSplits_complete
        ((ds ++ ('.' :: (fs ++ r))).takeWhile (fun c => c.isDigit))
        ((ds ++ ('.' :: (fs ++ r))).dropWhile (fun c => c.isDigit)) hk1 hk2
      rw [takeWhile_digits_append hdig, dropWhile_digits_append hdig, hdot, hdot2,
        List.append_nil, List.take_length, List.drop_length] at hm
      rw [takeWhile_digits_append hdig, dropWhile_digits_append hdig, hdot, hdot2,
        List.append_nil]
      simpa using hm

/-- Completeness: a string in the grammar has a full match. -/
lemma fullmatch_of_grammar {cs : List Char} (h : Grammar cs) :
    ∃ m, re_fullmatch cs = some m := by
  rcases h with ⟨a, b, c, rfl, ha, hb, hc⟩
  rcases pAxis_complete ha (b ++ c) with ⟨la, hla⟩
  rcases pAxis_complete hb c with ⟨lo, hlo⟩
  rcases pAlt_complete hc [] with ⟨al, hal⟩
  rw [List.append_nil] at hal
  have hmem : (la, lo, al) ∈ reMatches (a ++ (b ++ c)) := by
    simp only [reMatches, List.mem_flatMap]
    exact ⟨(la, b ++ c), hla, (lo, c), hlo, (al, []), hal, by simp⟩
  have hne : reMatches (a ++ (b ++ c)) ≠ [] := List.ne_nil_of_mem hmem
  rcases hx : reMatches (a ++ (b ++ c)) with _ | ⟨x, xs⟩
  · exact absurd hx hne
  · exact ⟨x, by unfold re_fullmatch; rw [hx]; rfl⟩

/-- The embedded `re.fullmatch` succeeds exactly on the strings of the
specification's grammar. -/
lemma fullmatch_iff_grammar (cs : List Char) :
    (∃ m, re_fullmatch cs = some m) ↔ Grammar cs := by
  constructor
  · rintro ⟨m, hm⟩
    exact grammar_of_fullmatch hm
  · exact fullmatch_of_grammar

/-! ## TemporalReference: `to_year_fraction` (lines 12–25)

`datetime` values are modelled to second precision (`time.mktime` of a
`timetuple` drops sub-second precision).  `since_epoch` models
`time.mktime`: seconds of a proleptic-Gregorian wall clock with a fixed
UTC offset; daylight-saving jumps of the local zone are not modelled (the
specification itself treats their sub-daily skew as an accepted
approximation). -/

/-- A Python `datetime.datetime`, to second precision. -/
structure PyDateTime where
  year : ℕ
  month : ℕ
  day : ℕ
  hour : ℕ
  minute : ℕ
  second : ℕ
deriving DecidableEq, Repr

/-- Gregorian leap-year test. -/
def isLeap (y : ℕ) : Bool := (y % 4 == 0 && y % 100 != 0) || y % 400 == 0

/-- Days in years `1, …, y-1` of the proleptic Gregorian calendar. -/
def daysBeforeYear (y : ℕ) : ℕ :=
  365 * (y - 1) + (y - 1) / 4 - (y - 1) / 100 + (y - 1) / 400

/-- Days in the months of year `y` strictly before month `m` (1-based). -/
def daysBeforeMonth (y m : ℕ) : ℕ :=
  [0, 0, 31, 59, 90, 120, 151, 181, 212, 243, 273, 304, 334].getD m 0 +
    (if 3 ≤ m ∧ isLeap y = true then 1 else 0)

/-- Day count of a date (days since the calendar origin). -/
def toOrdinal (d : PyDateTime) : ℕ :=
  daysBeforeYear d.year + daysBeforeMonth d.year d.month + (d.day - 1)

/-- Model of `time.mktime(date.timetuple())`: seconds of the date on a
fixed-offset wall clock (any constant epoch/zone offset cancels in the
differences `to_year_fraction` takes). -/
def since_epoch (d : PyDateTime) : ℤ :=
  (toOrdinal d : ℤ) * 86400 + d.hour * 3600 + d.minute * 60 + d.second

/-- `to_year_fraction` (lines 12–25): the date's year plus elapsed seconds
since Jan 1 of that year divided by the seconds between Jan 1 of that year
and Jan 1 of the next. -/
def to_year_fraction (date : PyDateTime) : ℚ :=
  let startOfThisYear : PyDateTime := ⟨date.year, 1, 1, 0, 0, 0⟩
  let startOfNextYear : PyDateTime := ⟨date.year + 1, 1, 1, 0, 0, 0⟩
  let yearElapsed : ℚ := ((since_epoch date : ℤ) : ℚ) - ((since_epoch startOfThisYear : ℤ) : ℚ)
  let yearDuration : ℚ :=
    ((since_epoch startOfNextYear : ℤ) : ℚ) - ((since_epoch startOfThisYear : ℤ) : ℚ)
  (date.year : ℚ) + yearElapsed / yearDuration

lemma daysBeforeYear_succ_of_not_leap {y : ℕ} (h1 : 1 ≤ y) (h : isLeap y = false) :
    daysBeforeYear (y + 1) = daysBeforeYear y + 365 := by
  obtain ⟨z, rfl⟩ : ∃ z, y = z + 1 := ⟨y - 1, by omega⟩
  simp only [daysBeforeYear, Nat.add_sub_cancel]
  by_cases h4 : 4 ∣ z + 1
  · by_cases h400 : 400 ∣ z + 1
    · exfalso
      have m400 : (z + 1) % 400 = 0 := by omega
      simp [isLeap, m400] at h
    · have h100 : 100 ∣ z + 1 := by
        by_contra h100
        have m4 : (z + 1) % 4 = 0 := by omega
        have m100 : (z + 1) % 100 ≠ 0 := by omega
        simp [isLeap, m4, m100] at h
      rw [Nat.succ_div_of_dvd h4, Nat.succ_div_of_dvd h100, Nat.succ_div_of_not_dvd h400]
      omega
  · have h100 : ¬ 100 ∣ z + 1 := fun hc => h4 (dvd_trans (by norm_num) hc)
    have h400 : ¬ 400 ∣ z + 1 := fun hc => h4 (dvd_trans (by norm_num) hc)
    rw [Nat.succ_div_of_not_dvd h4, Nat.succ_div_of_not_dvd h100, Nat.succ_div_of_not_dvd h400]
    omega

lemma daysBeforeMonth_12_of_not_leap {y : ℕ} (h : isLeap y = false) :
    daysBeforeMonth y 12 = 334 := by
  unfold daysBeforeMonth
  rw [if_neg (by simp [h])]
  rfl

lemma daysBeforeMonth_one (y : ℕ) : daysBeforeMonth y 1 = 0 := by
  unfold daysBeforeMonth
  rw [if_neg (by norm_num)]
  rfl

lemma to_year_fraction_jan1 (y : ℕ) : to_year_fraction ⟨y, 1, 1, 0, 0, 0⟩ = (y : ℚ) := by
  simp [to_year_fraction]

lemma to_year_fraction_dec31_lt {y : ℕ} (h1 : 1 ≤ y) (h : isLeap y = false) :
    to_year_fraction ⟨y, 12, 31, 23, 59, 59⟩ < (y : ℚ) + 1 := by
  have hdays : toOrdinal ⟨y, 12, 31, 23, 59, 59⟩ = daysBeforeYear y + 364 := by
    simp only [toOrdinal, daysBeforeMonth_12_of_not_leap h]
  have hjan : toOrdinal ⟨y, 1, 1, 0, 0, 0⟩ = daysBeforeYear y := by
    simp only [toOrdinal, daysBeforeMonth_one]
    omega
  have hnext : toOrdinal ⟨y + 1, 1, 1, 0, 0, 0⟩ = daysBeforeYear y + 365 := by
    simp only [toOrdinal, daysBeforeMonth_one]
    rw [daysBeforeYear_succ_of_not_leap h1 h]
  have e1 : ((since_epoch ⟨y, 12, 31, 23, 59, 59⟩ : ℤ) : ℚ) -
      ((since_epoch ⟨y, 1, 1, 0, 0, 0⟩ : ℤ) : ℚ) = 31535999 := by
    simp only [since_epoch, hdays, hjan]
    push_cast
    ring
  have e2 : ((since_epoch ⟨y + 1, 1, 1, 0, 0, 0⟩ : ℤ) : ℚ) -
      ((since_epoch ⟨y, 1, 1, 0, 0, 0⟩ : ℤ) : ℚ) = 31536000 := by
    simp only [since_epoch, hnext, hjan]
    push_cast
    ring
  simp only [to_year_fraction]
  rw [e1, e2]
  norm_num

/-! ## PositionAnnotator / DocumentWalker: `modify_positions_xml` (lines 94–131)

An `ElementTree` element is a tag, an insertion-ordered attribute map and
a list of child elements.  `element.get` reads an attribute;
`element.set` overwrites in place or appends a new attribute.  The
external collaborators are grouped in `Env`: `decl` is the black-box
`GeoMag.calculate(...).d` field model, and `today` is the wall clock, as
the stream of values successive `datetime.today()` calls return (the
`k`-th processed record performs the `k`-th call).  The pipeline
returns `Except`: an `error` value models an uncaught exception, in which
case `tree.write` is never reached and the file on disk is untouched; an
`ok` value carries the rewritten tree and the reported record count. -/

/-- An XML element: tag, attributes in document order, children. -/
structure XElem where
  tag : String
  attrs : List (String × String)
  children : List XElem

/-- `element.get(k)`: first binding of `k`, or `None`. -/
def getA (l : List (String × String)) (k : String) : Option String :=
  match l with
  | [] => none
  | (k', v') :: r => if k' = k then some v' else getA r k

/-- `element.set(k, v)`: overwrite the binding of `k` in place, or append
it. -/
def setAttr (l : List (String × String)) (k v : String) : List (String × String) :=
  match l with
  | [] => [(k, v)]
  | (k', v') :: r => if k' = k then (k, v) :: r else (k', v') :: setAttr r k v

/-- Round half-to-even to an integer, Python's `round` on exact values. -/
def roundHalfEven (x : ℚ) : ℤ :=
  let f : ℤ := ⌊x⌋
  if x - f < 1/2 then f
  else if (1 : ℚ)/2 < x - f then f + 1
  else if f % 2 = 0 then f else f + 1

/-- Python's `round(x, 2)`. -/
def pyRound2 (x : ℚ) : ℚ := (roundHalfEven (x * 100) : ℚ) / 100

/-- Python's `str` on the float `round(x, 2)` (a value with at most two
decimals): sign, integer part, then one or two fractional digits. -/
def ratRepr (q : ℚ) : String :=
  let m : ℤ := q.num * ((100 : ℤ) / (q.den : ℤ))
  let n : ℕ := m.natAbs
  let ip : ℕ := n / 100
  let fp : ℕ := n % 100
  let sgn : String := if q < 0 then "-" else ""
  if fp % 10 = 0 then sgn ++ toString ip ++ "." ++ toString (fp / 10)
  else if fp < 10 then sgn ++ toString ip ++ ".0" ++ toString fp
  else sgn ++ toString ip ++ "." ++ toString fp

/-- The pipeline's external collaborators: the geomagnetic model's
declination output and the wall clock read by `datetime.today()`. -/
structure Env where
  decl : ℚ → ℚ → ℚ → ℚ → ℚ
  today : ℕ → PyDateTime

/-- `get_mag_var` (lines 94–96) at the `k`-th `datetime.today()` call:
the model declination at the coordinate and the current decimal year. -/
def get_mag_var (env : Env) (k : ℕ) (latitude longitude altitude : ℚ) : ℚ :=
  env.decl latitude longitude altitude (to_year_fraction (env.today k))

/-- `re.fullmatch` applied to `element.get('DefaultCenter')`: a missing
attribute reaches the matcher as `None` and raises `TypeError`. -/
def parse_iso6709_arg : Option String → Except PyErr (ℚ × ℚ × Option ℚ)
  | none => .error (.typeError "expected string or bytes-like object")
  | some s => parse_iso6709 s

/-- `get_mag_var_for_iso6709` (lines 99–103): parse, default a missing
altitude to 0, call the model. -/
def get_mag_var_for_iso6709 (env : Env) (k : ℕ) (coord : Option String) : Except PyErr ℚ :=
  match parse_iso6709_arg coord with
  | .error e => .error e
  | .ok (lat, lon, altO) => .ok (get_mag_var env k lat lon (altO.getD 0))

/-- The loop body of lines 117–122 for one `Position` record (the `k`-th
record processed): negate the declination, round to 2 decimals, store it
as `MagneticVariation`, and store `Rotation = "0"`. -/
def annotatePosition (env : Env) (k : ℕ) (p : XElem) : Except PyErr XElem :=
  match get_mag_var_for_iso6709 env k (getA p.attrs "DefaultCenter") with
  | .error e => .error e
  | .ok d =>
      let magnetic_variation : ℚ := d * (-1)
      let attrs1 := setAttr p.attrs "MagneticVariation" (ratRepr (pyRound2 magnetic_variation))
      .ok { p with attrs := setAttr attrs1 "Rotation" "0" }

/-- `element.findall(tag)`: direct children with the given tag, in
document order. -/
def findall (e : XElem) (tag : String) : List XElem :=
  e.children.filter (fun c => c.tag = tag)

/-- Number of `Position` children in a list. -/
def numPos (cs : List XElem) : ℕ := (cs.filter (fun c => c.tag = "Position")).length

/-- `root_positions + group_positions` (lines 111–115): root-level
`Position` children first, then `Position` children of root-level
`Group` elements, in document order. -/
def all_positions (root : XElem) : List XElem :=
  findall root "Position" ++ (findall root "Group").flatMap (fun g => findall g "Position")

/-- Annotate the `Position` elements of a child list in document order,
threading the clock-call counter; other children are untouched.  Fails
with the first record's exception. -/
def annotChildren (env : Env) (k : ℕ) : List XElem → Except PyErr (List XElem)
  | [] => .ok []
  | c :: cs =>
      if c.tag = "Position" then
        match annotatePosition env k c with
        | .error e => .error e
        | .ok c' =>
            match annotChildren env (k + 1) cs with
            | .error e => .error e
            | .ok cs' => .ok (c' :: cs')
      else
        match annotChildren env k cs with
        | .error e => .error e
        | .ok cs' => .ok (c :: cs')

/-- Annotate the `Position` children of each `Group` element of a child
list, in document order, threading the clock-call counter across groups;
non-`Group` children are untouched. -/
def annotGroups (env : Env) (k : ℕ) : List XElem → Except PyErr (List XElem)
  | [] => .ok []
  | c :: cs =>
      if c.tag = "Group" then
        match annotChildren env k c.children with
        | .error e => .error e
        | .ok gcs =>
            match annotGroups env (k + numPos c.children) cs with
            | .error e => .error e
            | .ok cs' => .ok ({ c with children := gcs } :: cs')
      else
        match annotGroups env k cs with
        | .error e => .error e
        | .ok cs' => .ok (c :: cs')

/-- `modify_positions_xml` (lines 106–131): annotate all root-level
`Position` records, then all `Position` records one level under root-level
`Group` elements, in exactly the order of `all_positions`; on success
return the rewritten tree (the `tree.write` of line 125) and the record
count reported on line 131.  Any record failure aborts before the write:
no tree is produced. -/
def modify_positions_xml (env : Env) (root : XElem) : Except PyErr (XElem × ℕ) :=
  match annotChildren env 0 root.children with
  | .error e => .error e
  | .ok cs1 =>
      match annotGroups env (numPos root.children) cs1 with
      | .error e => .error e
      | .ok cs2 => .ok ({ root with children := cs2 }, (all_positions root).length)

/-! ### Attribute-map lemmas -/

lemma getA_setAttr_same (l : List (String × String)) (k v : String) :
    getA (setAttr l k v) k = some v := by
  induction l with
  | nil => simp [setAttr, getA]
  | cons p r ih =>
      obtain ⟨k', v'⟩ := p
      by_cases h : k' = k
      · simp [setAttr, h, getA]
      · simp [setAttr, h, getA, ih]

lemma getA_setAttr_other (l : List (String × String)) (k v a : String) (h : a ≠ k) :
    getA (setAttr l k v) a = getA l a := by
  induction l with
  | nil =>
      simp only [setAttr, getA]
      rw [if_neg (fun hc => h hc.symm)]
  | cons p r ih =>
      obtain ⟨k', v'⟩ := p
      by_cases hk : k' = k
      · subst hk
        simp only [setAttr, if_pos rfl, getA]
        rw [if_neg (fun hc => h hc.symm), if_neg (fun hc => h hc.symm)]
      · simp only [setAttr, if_neg hk, getA]
        by_cases ha : k' = a
        · rw [if_pos ha, if_pos ha]
        · rw [if_neg ha, if_neg ha, ih]

/-! ### Per-record behaviour -/

/-- The element written back for one record: `MagneticVariation` set to
`v`, then `Rotation` set to `"0"`; tag and children unchanged. -/
def annotated (p : XElem) (v : String) : XElem :=
  { p with attrs := setAttr (setAttr p.attrs "MagneticVariation" v) "Rotation" "0" }

/-- The exception a record's coordinate would raise, independent of the
clock index (`none` if the record parses). -/
def recordError (p : XElem) : Option PyErr :=
  match parse_iso6709_arg (getA p.attrs "DefaultCenter") with
  | .error e => some e
  | .ok _ => none

lemma annotatePosition_error {env : Env} {k : ℕ} {p : XElem} {e : PyErr}
    (h : recordError p = some e) : annotatePosition env k p = .error e := by
  unfold recordError at h
  unfold annotatePosition get_mag_var_for_iso6709
  rcases hp : parse_iso6709_arg (getA p.attrs "DefaultCenter") with e' | v
  · rw [hp] at h
    simp only [Option.some.injEq] at h
    subst h
    rfl
  · rw [hp] at h
    simp at h

lemma annotatePosition_ok {env : Env} {k : ℕ} {p : XElem}
    (h : recordError p = none) :
    ∃ lat lon altO, parse_iso6709_arg (getA p.attrs "DefaultCenter") = .ok (lat, lon, altO) ∧
      annotatePosition env k p =
        .ok (annotated p (ratRepr (pyRound2 (get_mag_var env k lat lon (altO.getD 0) * (-1))))) := by
  unfold recordError at h
  rcases hp : parse_iso6709_arg (getA p.attrs "DefaultCenter") with e' | v
  · rw [hp] at h
    simp at h
  · obtain ⟨lat, lon, altO⟩ := v
    unfold annotatePosition get_mag_var_for_iso6709
    rw [hp]
    exact ⟨lat, lon, altO, rfl, rfl⟩

lemma annotatePosition_ok_shape {env : Env} {k : ℕ} {p p' : XElem}
    (h : annotatePosition env k p = .ok p') :
    p'.tag = p.tag ∧ p'.children = p.children ∧
      getA p'.attrs "Rotation" = some "0" ∧
      (∀ a, a ≠ "MagneticVariation" → a ≠ "Rotation" → getA p'.attrs a = getA p.attrs a) := by
  unfold annotatePosition at h
  rcases hp : get_mag_var_for_iso6709 env k (getA p.attrs "DefaultCenter") with e | d
  · rw [hp] at h
    exact absurd h (by simp)
  · rw [hp] at h
    simp only [Except.ok.injEq] at h
    subst h
    refine ⟨rfl, rfl, getA_setAttr_same _ _ _, fun a h1 h2 => ?_⟩
    rw [getA_setAttr_other _ _ _ _ h2, getA_setAttr_other _ _ _ _ h1]

/-! ### List-level behaviour of the two annotation passes -/

/-- Placeholder element for out-of-range `getD` indexing. -/
def dfltX : XElem := ⟨"", [], []⟩

/-- Number of `Position` elements strictly before index `i`. -/
def posBefore (cs : List XElem) (i : ℕ) : ℕ := numPos (cs.take i)

/-- Number of group-nested `Position` records in `Group` elements
strictly before index `i`. -/
def groupPosBefore (cs : List XElem) (i : ℕ) : ℕ :=
  (((cs.take i).filter (fun c => c.tag = "Group")).map (fun g => numPos g.children)).sum

lemma numPos_cons (c : XElem) (cs : List XElem) :
    numPos (c :: cs) = (if c.tag = "Position" then 1 else 0) + numPos cs := by
  by_cases h : c.tag = "Position"
  · simp [numPos, List.filter, h]
    omega
  · simp [numPos, List.filter, h]

lemma annotChildren_ok_spec {env : Env} :
    ∀ {cs : List XElem} {k : ℕ} {cs' : List XElem}, annotChildren env k cs = .ok cs' →
      cs'.length = cs.length ∧
      ∀ i : ℕ,
        ((cs.getD i dfltX).tag ≠ "Position" → cs'.getD i dfltX = cs.getD i dfltX) ∧
        ((cs.getD i dfltX).tag = "Position" → i < cs.length →
          annotatePosition env (k + posBefore cs i) (cs.getD i dfltX) = .ok (cs'.getD i dfltX)) := by
  intro cs
  induction cs with
  | nil =>
      intro k cs' h
      simp only [annotChildren, Except.ok.injEq] at h
      subst h
      exact ⟨rfl, fun i => ⟨fun _ => rfl, fun _ hlt => absurd hlt (by simp)⟩⟩
  | cons c cs ih =>
      intro k cs' h
      simp only [annotChildren] at h
      by_cases hc : c.tag = "Position"
      · rw [if_pos hc] at h
        rcases ha : annotatePosition env k c with e | c0
        · rw [ha] at h
          exact absurd h (by simp)
        · rw [ha] at h
          rcases hr : annotChildren env (k + 1) cs with e | cs0
          · rw [hr] at h
            exact absurd h (by simp)
          · rw [hr] at h
            simp only [Except.ok.injEq] at h
            subst h
            obtain ⟨hlen, hspec⟩ := ih hr
            refine ⟨by simp [hlen], fun i => ?_⟩
            match i with
            | 0 =>
                refine ⟨fun habs => absurd hc habs, fun _ _ => ?_⟩
                simpa [posBefore, numPos] using ha
            | i + 1 =>
                obtain ⟨h1, h2⟩ := hspec i
                refine ⟨fun ht => by simpa using h1 ht, fun ht hlt => ?_⟩
                have harith : k + posBefore (c :: cs) (i + 1) = (k + 1) + posBefore cs i := by
                  simp only [posBefore, List.take_succ_cons, numPos_cons, if_pos hc]
                  omega
                rw [harith]
                simpa using h2 (by simpa using ht) (by simpa using hlt)
      · rw [if_neg hc] at h
        rcases hr : annotChildren env k cs with e | cs0
        · rw [hr] at h
          exact absurd h (by simp)
        · rw [hr] at h
          simp only [Except.ok.injEq] at h
          subst h
          obtain ⟨hlen, hspec⟩ := ih hr
          refine ⟨by simp [hlen], fun i => ?_⟩
          match i with
          | 0 => exact ⟨fun _ => rfl, fun ht _ => absurd ht hc⟩
          | i + 1 =>
              obtain ⟨h1, h2⟩ := hspec i
              refine ⟨fun ht => by simpa using h1 ht, fun ht hlt => ?_⟩
              have harith : k + posBefore (c :: cs) (i + 1) = k + posBefore cs i := by
                simp only [posBefore, List.take_succ_cons, numPos_cons, if_neg hc]
                omega
              rw [harith]
              simpa using h2 (by simpa using ht) (by simpa using hlt)

lemma annotGroups_ok_spec {env : Env} :
    ∀ {cs : List XElem} {k : ℕ} {cs' : List XElem}, annotGroups env k cs = .ok cs' →
      cs'.length = cs.length ∧
      ∀ i : ℕ,
        ((cs.getD i dfltX).tag ≠ "Group" → cs'.getD i dfltX = cs.getD i dfltX) ∧
        ((cs.getD i dfltX).tag = "Group" → i < cs.length →
          ∃ gcs', annotChildren env (k + groupPosBefore cs i) (cs.getD i dfltX).children = .ok gcs' ∧
            cs'.getD i dfltX = { cs.getD i dfltX with children := gcs' }) := by
  intro cs
  induction cs with
  | nil =>
      intro k cs' h
      simp only [annotGroups, Except.ok.injEq] at h
      subst h
      exact ⟨rfl, fun i => ⟨fun _ => rfl, fun _ hlt => absurd hlt (by simp)⟩⟩
  | cons c cs ih =>
      intro k cs' h
      simp only [annotGroups] at h
      by_cases hc : c.tag = "Group"
      · rw [if_pos hc] at h
        rcases ha : annotChildren env k c.children with e | gcs
        · rw [ha] at h
          exact absurd h (by simp)
        · rw [ha] at h
          rcases hr : annotGroups env (k + numPos c.children) cs with e | cs0
          · rw [hr] at h
            exact absurd h (by simp)
          · rw [hr] at h
            simp only [Except.ok.injEq] at h
            subst h
            obtain ⟨hlen, hspec⟩ := ih hr
            refine ⟨by simp [hlen], fun i => ?_⟩
            match i with
            | 0 =>
                refine ⟨fun habs => absurd hc habs, fun _ _ => ?_⟩
                refine ⟨gcs, ?_, rfl⟩
                simpa [groupPosBefore] using ha
            | i + 1 =>
                obtain ⟨h1, h2⟩ := hspec i
                refine ⟨fun ht => by simpa using h1 ht, fun ht hlt => ?_⟩
                obtain ⟨gcs', hg1, hg2⟩ := h2 (by simpa using ht) (by simpa using hlt)
                refine ⟨gcs', ?_, by simpa using hg2⟩
                have harith : k + groupPosBefore (c :: cs) (i + 1) =
                    (k + numPos c.children) + groupPosBefore cs i := by
                  simp [groupPosBefore, List.take_succ_cons, List.filter_cons, hc]
                  omega
                rw [harith]
                simpa using hg1
      · rw [if_neg hc] at h
        rcases hr : annotGroups env k cs with e | cs0
        · rw [hr] at h
          exact absurd h (by simp)
        · rw [hr] at h
          simp only [Except.ok.injEq] at h
          subst h
          obtain ⟨hlen, hspec⟩ := ih hr
          refine ⟨by simp [hlen], fun i => ?_⟩
          match i with
          | 0 => exact ⟨fun _ => rfl, fun ht _ => absurd ht hc⟩
          | i + 1 =>
              obtain ⟨h1, h2⟩ := hspec i
              refine ⟨fun ht => by simpa using h1 ht, fun ht hlt => ?_⟩
              obtain ⟨gcs', hg1, hg2⟩ := h2 (by simpa using ht) (by simpa using hlt)
              refine ⟨gcs', ?_, by simpa using hg2⟩
              have harith : k + groupPosBefore (c :: cs) (i + 1) = k + groupPosBefore cs i := by
                simp [groupPosBefore, List.take_succ_cons, List.filter_cons, hc]
              rw [harith]
              simpa using hg1

lemma annotChildren_error_of_mem {env : Env} {p : XElem} {e : PyErr}
    (htag : p.tag = "Position") (herr : recordError p = some e) :
    ∀ {cs : List XElem} {k : ℕ}, p ∈ cs → ∃ e', annotChildren env k cs = .error e' := by
  intro cs
  induction cs with
  | nil => intro k hmem; simp at hmem
  | cons c cs ih =>
      intro k hmem
      simp only [annotChildren]
      by_cases hc : c.tag = "Position"
      · rw [if_pos hc]
        rcases ha : annotatePosition env k c with e0 | c0
        · exact ⟨e0, rfl⟩
        · rcases List.mem_cons.mp hmem with rfl | htl
          · rw [annotatePosition_error herr] at ha
            exact absurd ha (by simp)
          · rcases ih htl with ⟨e', he'⟩
            rw [he']
            exact ⟨e', rfl⟩
      · rw [if_neg hc]
        rcases List.mem_cons.mp hmem with rfl | htl
        · exact absurd htag hc
        · rcases ih htl with ⟨e', he'⟩
          rw [he']
          exact ⟨e', rfl⟩

lemma annotGroups_error_of_mem {env : Env} {g p : XElem} {e : PyErr}
    (hgt : g.tag = "Group") (hp : p ∈ g.children) (htag : p.tag = "Position")
    (herr : recordError p = some e) :
    ∀ {cs : List XElem} {k : ℕ}, g ∈ cs → ∃ e', annotGroups env k cs = .error e' := by
  intro cs
  induction cs with
  | nil => intro k hmem; simp at hmem
  | cons c cs ih =>
      intro k hmem
      simp only [annotGroups]
      by_cases hc : c.tag = "Group"
      · rw [if_pos hc]
        rcases ha : annotChildren env k c.children with e0 | gcs
        · exact ⟨e0, rfl⟩
        · rcases List.mem_cons.mp hmem with rfl | htl
          · rcases @annotChildren_error_of_mem env p e htag herr g.children k hp with ⟨e', he'⟩
            rw [he'] at ha
            exact absurd ha (by simp)
          · rcases ih htl with ⟨e', he'⟩
            rw [he']
            exact ⟨e', rfl⟩
      · rw [if_neg hc]
        rcases List.mem_cons.mp hmem with rfl | htl
        · exact absurd hgt hc
        · rcases ih htl with ⟨e', he'⟩
          rw [he']
          exact ⟨e', rfl⟩

/-- Membership in `all_positions`, unfolded. -/
lemma mem_all_positions {root p : XElem} :
    p ∈ all_positions root ↔
      (p ∈ root.children ∧ p.tag = "Position") ∨
        ∃ g, g ∈ root.children ∧ g.tag = "Group" ∧ p ∈ g.children ∧ p.tag = "Position" := by
  simp only [all_positions, findall, List.mem_append, List.mem_flatMap, List.mem_filter,
    decide_eq_true_eq]
  constructor
  · rintro (⟨h1, h2⟩ | ⟨g, ⟨hg1, hg2⟩, hp1, hp2⟩)
    · exact .inl ⟨h1, h2⟩
    · exact .inr ⟨g, hg1, hg2, hp1, hp2⟩
  · rintro (⟨h1, h2⟩ | ⟨g, hg1, hg2, hp1, hp2⟩)
    · exact .inl ⟨h1, h2⟩
    · exact .inr ⟨g, ⟨hg1, hg2⟩, hp1, hp2⟩

/-- Fail-fast: one record with a raising coordinate aborts the whole run
(no output document is produced). -/
lemma modify_error_of_bad_record {env : Env} {root p : XElem} {e : PyErr}
    (hmem : p ∈ all_positions root) (herr : recordError p = some e) :
    ∃ e', modify_positions_xml env root = .error e' := by
  have htag : p.tag = "Position" := by
    rcases mem_all_positions.mp hmem with ⟨_, h⟩ | ⟨_, _, _, _, h⟩ <;> exact h
  unfold modify_positions_xml
  rcases h1 : annotChildren env 0 root.children with e1 | cs1
  · exact ⟨e1, rfl⟩
  · rcases mem_all_positions.mp hmem with ⟨hmem1, _⟩ | ⟨g, hg1, hg2, hp1, _⟩
    · rcases @annotChildren_error_of_mem env p e htag herr root.children 0 hmem1 with ⟨e', he'⟩
      rw [he'] at h1
      exact absurd h1 (by simp)
    · obtain ⟨hlen, hspec⟩ := annotChildren_ok_spec h1
      obtain ⟨i, hi, hgi⟩ := List.getElem_of_mem hg1
      have hgd : root.children.getD i dfltX = g := by
        rw [List.getD_eq_getElem _ _ hi, hgi]
      have hkeep : cs1.getD i dfltX = g := by
        have := (hspec i).1 (by rw [hgd, hg2]; simp)
        rw [this, hgd]
      have hg1' : g ∈ cs1 := by
        rw [← hkeep]
        rw [List.getD_eq_getElem _ _ (by omega)]
        exact List.getElem_mem _
      rcases @annotGroups_error_of_mem env g p e hg2 hp1 htag herr cs1
          (numPos root.children) hg1' with ⟨e', he'⟩
      dsimp only
      rw [he']
      exact ⟨e', rfl⟩

/-- Full per-child characterisation of a successful pipeline run: the tag,
attributes and child count of the document are unchanged; children that
are neither `Position` nor `Group` are untouched; each root-level
`Position` is annotated (as the `posBefore`-th processed record); each
`Group` keeps its tag and attributes, its non-`Position` children are
untouched, and its `Position` children are annotated at some clock
index. -/
lemma modify_ok_full {env : Env} {root out : XElem} {n : ℕ}
    (h : modify_positions_xml env root = .ok (out, n)) :
    out.tag = root.tag ∧ out.attrs = root.attrs ∧ n = (all_positions root).length ∧
    out.children.length = root.children.length ∧
    ∀ i : ℕ,
      ((root.children.getD i dfltX).tag ≠ "Position" → (root.children.getD i dfltX).tag ≠ "Group" →
        out.children.getD i dfltX = root.children.getD i dfltX) ∧
      ((root.children.getD i dfltX).tag = "Position" → i < root.children.length →
        annotatePosition env (posBefore root.children i) (root.children.getD i dfltX) =
          .ok (out.children.getD i dfltX)) ∧
      ((root.children.getD i dfltX).tag = "Group" → i < root.children.length →
        (out.children.getD i dfltX).tag = (root.children.getD i dfltX).tag ∧
        (out.children.getD i dfltX).attrs = (root.children.getD i dfltX).attrs ∧
        (out.children.getD i dfltX).children.length =
          (root.children.getD i dfltX).children.length ∧
        ∀ j : ℕ,
          (((root.children.getD i dfltX).children.getD j dfltX).tag ≠ "Position" →
            (out.children.getD i dfltX).children.getD j dfltX =
              (root.children.getD i dfltX).children.getD j dfltX) ∧
          (((root.children.getD i dfltX).children.getD j dfltX).tag = "Position" →
            j < (root.children.getD i dfltX).children.length →
            ∃ k, annotatePosition env k ((root.children.getD i dfltX).children.getD j dfltX) =
              .ok ((out.children.getD i dfltX).children.getD j dfltX))) := by
  unfold modify_positions_xml at h
  rcases h1 : annotChildren env 0 root.children with e1 | cs1
  · rw [h1] at h
    exact absurd h (by simp)
  · rw [h1] at h
    dsimp only at h
    rcases h2 : annotGroups env (numPos root.children) cs1 with e2 | cs2
    · rw [h2] at h
      exact absurd h (by simp)
    · rw [h2] at h
      simp only [Except.ok.injEq, Prod.mk.injEq] at h
      obtain ⟨hout, hn⟩ := h
      subst hout
      obtain ⟨hlen1, hspec1⟩ := annotChildren_ok_spec h1
      obtain ⟨hlen2, hspec2⟩ := annotGroups_ok_spec h2
      refine ⟨rfl, rfl, hn.symm, by simp [hlen2, hlen1], fun i => ?_⟩
      obtain ⟨hs1a, hs1b⟩ := hspec1 i
      obtain ⟨hs2a, hs2b⟩ := hspec2 i
      refine ⟨fun hnp hng => ?_, fun hp hlt => ?_, fun hg hlt => ?_⟩
      · have e1' : cs1.getD i dfltX = root.children.getD i dfltX := hs1a hnp
        have e2' : cs2.getD i dfltX = cs1.getD i dfltX := by
          apply hs2a
          rw [e1']
          exact hng
        simpa using e2'.trans e1'
      · have ha := hs1b hp hlt
        rw [Nat.zero_add] at ha
        obtain ⟨ht, _, _, _⟩ := annotatePosition_ok_shape ha
        have e2' : cs2.getD i dfltX = cs1.getD i dfltX := by
          apply hs2a
          rw [ht, hp]
          simp
        rw [e2']
        exact ha
      · have e1' : cs1.getD i dfltX = root.children.getD i dfltX := by
          apply hs1a
          rw [hg]
          simp
        obtain ⟨gcs', hgc, hupd⟩ := hs2b (by rw [e1']; exact hg) (by omega)
        rw [e1'] at hgc hupd
        obtain ⟨hglen, hgspec⟩ := annotChildren_ok_spec hgc
        have hcs2 : (cs2.getD i dfltX).children = gcs' := by rw [hupd]
        refine ⟨by rw [hupd], by rw [hupd], by rw [hcs2]; exact hglen, fun j => ?_⟩
        obtain ⟨hgj1, hgj2⟩ := hgspec j
        refine ⟨fun hnp => ?_, fun hp hjlt => ?_⟩
        · rw [hcs2]
          exact hgj1 hnp
        · refine ⟨numPos root.children + groupPosBefore cs1 i + posBefore
            (root.children.getD i dfltX).children j, ?_⟩
          rw [hcs2]
          exact hgj2 hp hjlt

/-! ## Claim theorems -/

/-- C1: the parser decodes each axis by the tier rule — sign times
degrees; sign times (degrees + minutes/60); sign times (degrees +
minutes/60 + seconds/3600) — and in particular
`parse("+123456.00-0654321.00")` returns latitude `12 + 34/60 + 56/3600`
and longitude `-(65 + 43/60 + 21/3600)` with no altitude, and
`parse("+12.5-065.75")` returns latitude `12.5`, longitude `-65.75`, no
altitude. -/
theorem c1_tier_decoding :
    (∀ (b : Bool) (d : Cap), decodeAxis ⟨b, d, none, none⟩ =
      (if b then (-1 : ℚ) else 1) * pyFloat d) ∧
    (∀ (b : Bool) (d m : Cap), decodeAxis ⟨b, d, some m, none⟩ =
      (if b then (-1 : ℚ) else 1) * (pyFloat d + pyFloat m / 60)) ∧
    (∀ (b : Bool) (d m s : Cap), decodeAxis ⟨b, d, some m, some s⟩ =
      (if b then (-1 : ℚ) else 1) * (pyFloat d + pyFloat m / 60 + pyFloat s / 3600)) ∧
    parse_iso6709 "+123456.00-0654321.00" =
      .ok (12 + 34/60 + 56/3600, -(65 + 43/60 + 21/3600), none) ∧
    parse_iso6709 "+12.5-065.75" = .ok (12.5, -65.75, none) := by
  refine ⟨fun b d => rfl, fun b d m => rfl, fun b d m s => rfl, ?_, ?_⟩
  · have h : re_fullmatch "+123456.00-0654321.00".toList =
        some (⟨false, ⟨['1','2'], none⟩, some ⟨['3','4'], none⟩, some ⟨['5','6'], some ['0','0']⟩⟩,
              ⟨true, ⟨['0','6','5'], none⟩, some ⟨['4','3'], none⟩, some ⟨['2','1'], some ['0','0']⟩⟩,
              none) := by rfl
    unfold parse_iso6709
    rw [h]
    simp only [decodeAxis, pyFloat, fracVal, Option.map_none]
    norm_num [show natOfDigits ['1','2'] = 12 from rfl, show natOfDigits ['3','4'] = 34 from rfl,
      show natOfDigits ['5','6'] = 56 from rfl, show natOfDigits ['0','0'] = 0 from rfl,
      show natOfDigits ['0','6','5'] = 65 from rfl, show natOfDigits ['4','3'] = 43 from rfl,
      show natOfDigits ['2','1'] = 21 from rfl]
  · have h : re_fullmatch "+12.5-065.75".toList =
        some (⟨false, ⟨['1','2'], some ['5']⟩, none, none⟩,
              ⟨true, ⟨['0','6','5'], some ['7','5']⟩, none, none⟩, none) := by rfl
    unfold parse_iso6709
    rw [h]
    simp only [decodeAxis, pyFloat, fracVal, Option.map_none]
    norm_num [show natOfDigits ['1','2'] = 12 from rfl, show natOfDigits ['5'] = 5 from rfl,
      show natOfDigits ['0','6','5'] = 65 from rfl, show natOfDigits ['7','5'] = 75 from rfl]

/-- C5: `parse` fails — with a `ValueError` whose message embeds the raw
string — exactly when the string does not fully match the grammar (no
partial matches, no leading or trailing garbage); in particular
`parse("12.5-065.75")`, which lacks the leading sign, fails with that
error. -/
theorem c5_format_error_iff :
    (∀ s : String,
      (∃ msg, parse_iso6709 s = .error (.valueError msg) ∧ ∃ pre, msg = pre ++ s) ↔
        ¬ Grammar s.toList) ∧
    parse_iso6709 "12.5-065.75" =
      .error (.valueError "Invalid ISO 6709 coordinate format: 12.5-065.75") := by
  constructor
  · intro s
    constructor
    · rintro ⟨msg, hmsg, -⟩ hg
      rcases fullmatch_of_grammar hg with ⟨m, hm⟩
      unfold parse_iso6709 at hmsg
      rw [hm] at hmsg
      obtain ⟨la, lo, al⟩ := m
      exact absurd hmsg (by simp)
    · intro hg
      cases hm : re_fullmatch s.toList with
      | none =>
          refine ⟨"Invalid ISO 6709 coordinate format: " ++ s, ?_,
            "Invalid ISO 6709 coordinate format: ", rfl⟩
          unfold parse_iso6709
          rw [hm]
      | some m => exact absurd (grammar_of_fullmatch hm) hg
  · rfl

theorem c5_witness :
    parse_iso6709 "12.5-065.75" =
      .error (.valueError "Invalid ISO 6709 coordinate format: 12.5-065.75") ∧
    ¬ Grammar "12.5-065.75".toList :=
  ⟨c5_format_error_iff.2,
    (c5_format_error_iff.1 "12.5-065.75").mp
      ⟨"Invalid ISO 6709 coordinate format: 12.5-065.75", c5_format_error_iff.2,
        "Invalid ISO 6709 coordinate format: ", rfl⟩⟩

/-- C6 counterexample: `"+1234-065"` mixes tiers across axes (latitude
degrees+minutes, longitude degrees only), yet the parser accepts it,
returning `12 + 34/60` and `-65` — it is not rejected with a
`FormatError` as the claim states. -/
theorem c6_counterexample :
    parse_iso6709 "+1234-065" = .ok (12 + 34/60, -65, none) := by
  have h : re_fullmatch "+1234-065".toList =
      some (⟨false, ⟨['1','2'], none⟩, some ⟨['3','4'], none⟩, none⟩,
            ⟨true, ⟨['0','6','5'], none⟩, none, none⟩, none) := by rfl
  unfold parse_iso6709
  rw [h]
  simp only [decodeAxis, pyFloat, fracVal, Option.map_none]
  norm_num [show natOfDigits ['1','2'] = 12 from rfl, show natOfDigits ['3','4'] = 34 from rfl,
    show natOfDigits ['0','6','5'] = 65 from rfl]

/-- C6 amended: the parser rejects (with the `ValueError` format error)
every string not decomposable into the grammar — per-axis, each axis one
of the three tiers — but the two axes' tiers are independent:
`"+1234-065"` (latitude with minutes, longitude degrees-only) is matched
with those very captures and accepted. -/
theorem c6_amended_per_axis :
    (∀ s : String, ¬ Grammar s.toList →
      ∃ msg, parse_iso6709 s = .error (.valueError msg)) ∧
    re_fullmatch "+1234-065".toList =
      some (⟨false, ⟨['1','2'], none⟩, some ⟨['3','4'], none⟩, none⟩,
            ⟨true, ⟨['0','6','5'], none⟩, none, none⟩, none) ∧
    (∃ v, parse_iso6709 "+1234-065" = .ok v) := by
  refine ⟨fun s hg => ?_, by rfl, ?_⟩
  · cases hm : re_fullmatch s.toList with
    | none =>
        refine ⟨"Invalid ISO 6709 coordinate format: " ++ s, ?_⟩
        unfold parse_iso6709
        rw [hm]
    | some m => exact absurd (grammar_of_fullmatch hm) hg
  · exact ⟨(12 + 34/60, -65, none), c6_counterexample⟩

theorem c6_amended_witness : ∃ msg, parse_iso6709 "abc" = .error (.valueError msg) :=
  c6_amended_per_axis.1 "abc" (fun hg => by
    rcases fullmatch_of_grammar hg with ⟨m, hm⟩
    rw [show re_fullmatch "abc".toList = none from rfl] at hm
    exact Option.noConfusion hm)

/-- C8: `to_year_fraction` returns the date's year plus elapsed seconds
since midnight Jan 1 of that year divided by the seconds between that
midnight and midnight Jan 1 of the next year; on Jan 1 00:00:00 of any
year it is exactly the year, and on Dec 31 23:59:59 of a non-leap year it
is strictly below year + 1. -/
theorem c8_decimal_year :
    (∀ d : PyDateTime, to_year_fraction d = (d.year : ℚ) +
      (((since_epoch d : ℤ) : ℚ) - ((since_epoch ⟨d.year, 1, 1, 0, 0, 0⟩ : ℤ) : ℚ)) /
        (((since_epoch ⟨d.year + 1, 1, 1, 0, 0, 0⟩ : ℤ) : ℚ) -
          ((since_epoch ⟨d.year, 1, 1, 0, 0, 0⟩ : ℤ) : ℚ))) ∧
    (∀ y : ℕ, to_year_fraction ⟨y, 1, 1, 0, 0, 0⟩ = (y : ℚ)) ∧
    (∀ y : ℕ, 1 ≤ y → isLeap y = false →
      to_year_fraction ⟨y, 12, 31, 23, 59, 59⟩ < (y : ℚ) + 1) :=
  ⟨fun d => rfl, to_year_fraction_jan1, fun y h1 h2 => to_year_fraction_dec31_lt h1 h2⟩

theorem c8_witness :
    to_year_fraction ⟨2023, 1, 1, 0, 0, 0⟩ = ((2023 : ℕ) : ℚ) ∧ 1 ≤ 2023 ∧
      isLeap 2023 = false ∧
      to_year_fraction ⟨2023, 12, 31, 23, 59, 59⟩ < ((2023 : ℕ) : ℚ) + 1 :=
  ⟨c8_decimal_year.2.1 2023, by decide, by decide,
    c8_decimal_year.2.2 2023 (by decide) (by decide)⟩

/-! ### Step lemmas and concrete fixtures for the pipeline -/

lemma annotated_getA (p : XElem) (v : String) :
    getA (annotated p v).attrs "MagneticVariation" = some v ∧
    getA (annotated p v).attrs "Rotation" = some "0" := by
  unfold annotated
  refine ⟨?_, getA_setAttr_same _ _ _⟩
  rw [getA_setAttr_other _ _ _ _ (by decide), getA_setAttr_same]

lemma annotChildren_nil (env : Env) (k : ℕ) : annotChildren env k [] = .ok [] := rfl

lemma annotChildren_cons_pos {c : XElem} (env : Env) (k : ℕ) (cs : List XElem)
    (hc : c.tag = "Position") :
    annotChildren env k (c :: cs) =
      match annotatePosition env k c with
      | .error e => .error e
      | .ok c' =>
          match annotChildren env (k + 1) cs with
          | .error e => .error e
          | .ok cs' => .ok (c' :: cs') := by
  simp only [annotChildren, if_pos hc]

lemma annotChildren_cons_other {c : XElem} (env : Env) (k : ℕ) (cs : List XElem)
    (hc : ¬ c.tag = "Position") :
    annotChildren env k (c :: cs) =
      match annotChildren env k cs with
      | .error e => .error e
      | .ok cs' => .ok (c :: cs') := by
  simp only [annotChildren, if_neg hc]

lemma annotGroups_nil (env : Env) (k : ℕ) : annotGroups env k [] = .ok [] := rfl

lemma annotGroups_cons_grp {c : XElem} (env : Env) (k : ℕ) (cs : List XElem)
    (hc : c.tag = "Group") :
    annotGroups env k (c :: cs) =
      match annotChildren env k c.children with
      | .error e => .error e
      | .ok gcs =>
          match annotGroups env (k + numPos c.children) cs with
          | .error e => .error e
          | .ok cs' => .ok ({ c with children := gcs } :: cs') := by
  simp only [annotGroups, if_pos hc]

lemma annotGroups_cons_other {c : XElem} (env : Env) (k : ℕ) (cs : List XElem)
    (hc : ¬ c.tag = "Group") :
    annotGroups env k (c :: cs) =
      match annotGroups env k cs with
      | .error e => .error e
      | .ok cs' => .ok (c :: cs') := by
  simp only [annotGroups, if_neg hc]

/-- Evaluate one record annotation when the value can be computed. -/
lemma annotate_run (env : Env) (k : ℕ) (p : XElem) (hre : recordError p = none)
    (v : String)
    (hv : ∀ lat lon altO,
      parse_iso6709_arg (getA p.attrs "DefaultCenter") = .ok (lat, lon, altO) →
      ratRepr (pyRound2 (get_mag_var env k lat lon (altO.getD 0) * (-1))) = v) :
    annotatePosition env k p = .ok (annotated p v) := by
  obtain ⟨lat, lon, altO, hparse, hform⟩ := @annotatePosition_ok env k p hre
  rw [hform, hv lat lon altO hparse]

/-- A stub environment: the model always returns declination 0; the
clock always reads Jan 1 2025. -/
def envC : Env := ⟨fun _ _ _ _ => 0, fun _ => ⟨2025, 1, 1, 0, 0, 0⟩⟩

/-- A ticking environment: the model returns its decimal-year argument
as declination; the `k`-th clock read is Jan 1 of year `2020 + k`. -/
def envTick : Env := ⟨fun _ _ _ t => t, fun k => ⟨2020 + k, 1, 1, 0, 0, 0⟩⟩

def posGood : XElem := ⟨"Position", [("Name", "TEST"), ("DefaultCenter", "+123456.00-0654321.00")], []⟩
def posBad : XElem := ⟨"Position", [("Name", "BAD"), ("DefaultCenter", "abc")], []⟩
def posNoCenter : XElem := ⟨"Position", [("Name", "NC")], []⟩
def posTwo : XElem := ⟨"Position", [("DefaultCenter", "+12-065")], []⟩
def posDeep : XElem := ⟨"Position", [("Name", "DEEP"), ("DefaultCenter", "abc")], []⟩
def innerGroup : XElem := ⟨"Group", [], [posDeep]⟩
def outerGroup : XElem := ⟨"Group", [], [innerGroup]⟩

def docGood : XElem := ⟨"Positions", [], [posGood]⟩
def docBad : XElem := ⟨"Positions", [], [posBad]⟩
def docMixed : XElem := ⟨"Positions", [], [posBad, posNoCenter]⟩
def docNoCenter : XElem := ⟨"Positions", [], [posNoCenter]⟩
def docTwo : XElem := ⟨"Positions", [], [posTwo, posTwo]⟩
def docDeep : XElem := ⟨"Positions", [], [posGood, outerGroup]⟩

def outGood : XElem := ⟨"Positions", [], [annotated posGood "0.0"]⟩
def outTwo : XElem := ⟨"Positions", [], [annotated posTwo "-2020.0", annotated posTwo "-2021.0"]⟩
def outDeep : XElem := ⟨"Positions", [], [annotated posGood "0.0", outerGroup]⟩

lemma magvar_zero : ratRepr (pyRound2 ((0 : ℚ) * (-1))) = "0.0" := by
  have h : pyRound2 ((0 : ℚ) * (-1)) = 0 := by
    unfold pyRound2 roundHalfEven
    norm_num
  rw [h]
  rfl

lemma magvar_tick (m : ℕ) (k : ℕ) {lat lon alt : ℚ}
    (hy : to_year_fraction (envTick.today k) = ((m : ℕ) : ℚ))
    (hv : ratRepr (pyRound2 (((m : ℕ) : ℚ) * (-1))) = "-" ++ toString m ++ ".0") :
    ratRepr (pyRound2 (get_mag_var envTick k lat lon alt * (-1))) =
      "-" ++ toString m ++ ".0" := by
  rw [show get_mag_var envTick k lat lon alt = to_year_fraction (envTick.today k) from rfl, hy, hv]

lemma hann_good (k : ℕ) : annotatePosition envC k posGood = .ok (annotated posGood "0.0") :=
  annotate_run envC k posGood rfl "0.0" (fun lat lon altO _ => by
    rw [show get_mag_var envC k lat lon (altO.getD 0) = 0 from rfl]
    exact magvar_zero)

lemma run_docGood : modify_positions_xml envC docGood = .ok (outGood, 1) := by
  unfold modify_positions_xml
  have h1 : annotChildren envC 0 docGood.children = .ok [annotated posGood "0.0"] := by
    show annotChildren envC 0 [posGood] = _
    rw [annotChildren_cons_pos envC 0 [] (by rfl), hann_good 0, annotChildren_nil]
  rw [h1]
  dsimp only
  have h2 : annotGroups envC (numPos docGood.children) [annotated posGood "0.0"] =
      .ok [annotated posGood "0.0"] := by
    rw [annotGroups_cons_other _ _ _ (by decide), annotGroups_nil]
  rw [h2]
  rfl

lemma hann_tick (k m : ℕ) (hy : to_year_fraction (envTick.today k) = ((m : ℕ) : ℚ))
    (v : String) (hv : ratRepr (pyRound2 (((m : ℕ) : ℚ) * (-1))) = v) :
    annotatePosition envTick k posTwo = .ok (annotated posTwo v) :=
  annotate_run envTick k posTwo rfl v (fun lat lon altO _ => by
    rw [show get_mag_var envTick k lat lon (altO.getD 0) =
      to_year_fraction (envTick.today k) from rfl, hy, hv])

lemma hann_tick0 : annotatePosition envTick 0 posTwo = .ok (annotated posTwo "-2020.0") :=
  hann_tick 0 2020 (to_year_fraction_jan1 2020) "-2020.0" (by
    rw [show (((2020 : ℕ) : ℚ)) * (-1) = -2020 by norm_num,
      show pyRound2 (-2020 : ℚ) = -2020 by unfold pyRound2 roundHalfEven; norm_num]
    rfl)

lemma hann_tick1 : annotatePosition envTick 1 posTwo = .ok (annotated posTwo "-2021.0") :=
  hann_tick 1 2021 (to_year_fraction_jan1 2021) "-2021.0" (by
    rw [show (((2021 : ℕ) : ℚ)) * (-1) = -2021 by norm_num,
      show pyRound2 (-2021 : ℚ) = -2021 by unfold pyRound2 roundHalfEven; norm_num]
    rfl)

lemma run_docTwo : modify_positions_xml envTick docTwo = .ok (outTwo, 2) := by
  unfold modify_positions_xml
  have hsub : annotChildren envTick (0 + 1) [posTwo] = .ok [annotated posTwo "-2021.0"] := by
    rw [show (0 + 1 : ℕ) = 1 from rfl]
    rw [annotChildren_cons_pos envTick 1 [] (by rfl), hann_tick1, annotChildren_nil]
  have h1 : annotChildren envTick 0 docTwo.children =
      .ok [annotated posTwo "-2020.0", annotated posTwo "-2021.0"] := by
    show annotChildren envTick 0 [posTwo, posTwo] = _
    rw [annotChildren_cons_pos envTick 0 [posTwo] (by rfl), hann_tick0]
    dsimp only
    rw [hsub]
  rw [h1]
  dsimp only
  have h2 : annotGroups envTick (numPos docTwo.children)
      [annotated posTwo "-2020.0", annotated posTwo "-2021.0"] =
      .ok [annotated posTwo "-2020.0", annotated posTwo "-2021.0"] := by
    rw [annotGroups_cons_other _ _ _ (by decide), annotGroups_cons_other _ _ _ (by decide),
      annotGroups_nil]
  rw [h2]
  rfl

lemma run_docDeep : modify_positions_xml envC docDeep = .ok (outDeep, 1) := by
  unfold modify_positions_xml
  have hsub : annotChildren envC (0 + 1) [outerGroup] = .ok [outerGroup] := by
    rw [annotChildren_cons_other _ _ _ (by decide), annotChildren_nil]
  have h1 : annotChildren envC 0 docDeep.children =
      .ok [annotated posGood "0.0", outerGroup] := by
    show annotChildren envC 0 [posGood, outerGroup] = _
    rw [annotChildren_cons_pos envC 0 [outerGroup] (by rfl), hann_good 0]
    dsimp only
    rw [hsub]
  rw [h1]
  dsimp only
  have hinner : annotChildren envC (numPos docDeep.children + groupPosBefore
      [annotated posGood "0.0", outerGroup] 1) [innerGroup] = .ok [innerGroup] := by
    rw [annotChildren_cons_other _ _ _ (by decide), annotChildren_nil]
  have h2 : annotGroups envC (numPos docDeep.children)
      [annotated posGood "0.0", outerGroup] =
      .ok [annotated posGood "0.0", outerGroup] := by
    rw [annotGroups_cons_other _ _ _ (by decide)]
    rw [annotGroups_cons_grp _ _ _ (by rfl)]
    rw [show outerGroup.children = [innerGroup] from rfl]
    rw [annotChildren_cons_other _ _ _ (by decide), annotChildren_nil]
    dsimp only
    rw [annotGroups_nil]
    rfl
  rw [h2]
  rfl

/-- C2: after annotation, every selected record's `MagneticVariation`
equals the raw model declination times `-1`, rounded to 2 decimals and
formatted, its `Rotation` is the literal string `"0"`, and a coordinate
with no altitude reaches the model with altitude 0 (`altO.getD 0`). -/
theorem c2_magvar_rotation :
    ∀ (env : Env) (root out : XElem) (n : ℕ),
      modify_positions_xml env root = .ok (out, n) →
      (∀ i : ℕ, i < root.children.length → (root.children.getD i dfltX).tag = "Position" →
        ∃ k lat lon altO,
          parse_iso6709_arg (getA (root.children.getD i dfltX).attrs "DefaultCenter") =
            .ok (lat, lon, altO) ∧
          getA (out.children.getD i dfltX).attrs "MagneticVariation" =
            some (ratRepr (pyRound2
              (env.decl lat lon (altO.getD 0) (to_year_fraction (env.today k)) * (-1)))) ∧
          getA (out.children.getD i dfltX).attrs "Rotation" = some "0") ∧
      (∀ i j : ℕ, i < root.children.length → (root.children.getD i dfltX).tag = "Group" →
        j < (root.children.getD i dfltX).children.length →
        ((root.children.getD i dfltX).children.getD j dfltX).tag = "Position" →
        ∃ k lat lon altO,
          parse_iso6709_arg (getA ((root.children.getD i dfltX).children.getD j dfltX).attrs
            "DefaultCenter") = .ok (lat, lon, altO) ∧
          getA ((out.children.getD i dfltX).children.getD j dfltX).attrs "MagneticVariation" =
            some (ratRepr (pyRound2
              (env.decl lat lon (altO.getD 0) (to_year_fraction (env.today k)) * (-1)))) ∧
          getA ((out.children.getD i dfltX).children.getD j dfltX).attrs "Rotation" =
            some "0") := by
  intro env root out n h
  obtain ⟨-, -, -, hlen, hspec⟩ := modify_ok_full h
  constructor
  · intro i hlt hp
    have ha := (hspec i).2.1 hp hlt
    cases hre : recordError (root.children.getD i dfltX) with
    | some e =>
        rw [annotatePosition_error hre] at ha
        exact absurd ha (by simp)
    | none =>
        obtain ⟨lat, lon, altO, hparse, hform⟩ :=
          @annotatePosition_ok env (posBefore root.children i) _ hre
        rw [hform] at ha
        simp only [Except.ok.injEq] at ha
        refine ⟨posBefore root.children i, lat, lon, altO, hparse, ?_, ?_⟩
        · rw [← ha]
          exact (annotated_getA _ _).1
        · rw [← ha]
          exact (annotated_getA _ _).2
  · intro i j hlt hg hjlt hp
    obtain ⟨-, -, -, hj⟩ := (hspec i).2.2 hg hlt
    obtain ⟨k, ha⟩ := (hj j).2 hp hjlt
    cases hre : recordError ((root.children.getD i dfltX).children.getD j dfltX) with
    | some e =>
        rw [annotatePosition_error hre] at ha
        exact absurd ha (by simp)
    | none =>
        obtain ⟨lat, lon, altO, hparse, hform⟩ := @annotatePosition_ok env k _ hre
        rw [hform] at ha
        simp only [Except.ok.injEq] at ha
        refine ⟨k, lat, lon, altO, hparse, ?_, ?_⟩
        · rw [← ha]
          exact (annotated_getA _ _).1
        · rw [← ha]
          exact (annotated_getA _ _).2

theorem c2_witness :
    modify_positions_xml envC docGood = .ok (outGood, 1) ∧
    0 < docGood.children.length ∧ (docGood.children.getD 0 dfltX).tag = "Position" ∧
    (∃ k lat lon altO,
      parse_iso6709_arg (getA (docGood.children.getD 0 dfltX).attrs "DefaultCenter") =
        .ok (lat, lon, altO) ∧
      getA (outGood.children.getD 0 dfltX).attrs "MagneticVariation" =
        some (ratRepr (pyRound2
          (envC.decl lat lon (altO.getD 0) (to_year_fraction (envC.today k)) * (-1)))) ∧
      getA (outGood.children.getD 0 dfltX).attrs "Rotation" = some "0") :=
  ⟨run_docGood, by decide, rfl,
    (c2_magvar_rotation envC docGood outGood 1 run_docGood).1 0 (by decide) rfl⟩

/-- C3: if any selected record's `DefaultCenter` string is malformed
(its parse raises), the run aborts with an error and no rewritten
document is produced — the file on disk stays untouched. -/
theorem c3_fail_fast :
    ∀ (env : Env) (root : XElem),
      (∃ p, p ∈ all_positions root ∧ ∃ s, getA p.attrs "DefaultCenter" = some s ∧
        ∃ e, parse_iso6709 s = .error e) →
      (∃ e', modify_positions_xml env root = .error e') ∧
      ∀ (out : XElem) (n : ℕ), modify_positions_xml env root ≠ .ok (out, n) := by
  rintro env root ⟨p, hmem, s, hs, e, he⟩
  have herr : recordError p = some e := by
    have harg : parse_iso6709_arg (some s) = .error e := he
    unfold recordError
    rw [hs, harg]
  rcases modify_error_of_bad_record hmem herr with ⟨e', he'⟩
  exact ⟨⟨e', he'⟩, fun out n hc => by rw [he'] at hc; exact Except.noConfusion hc⟩

theorem c3_witness :
    (∃ p, p ∈ all_positions docBad ∧ ∃ s, getA p.attrs "DefaultCenter" = some s ∧
      ∃ e, parse_iso6709 s = .error e) ∧
    (∃ e', modify_positions_xml envC docBad = .error e') ∧
    ∀ (out : XElem) (n : ℕ), modify_positions_xml envC docBad ≠ .ok (out, n) :=
  have hpre : ∃ p, p ∈ all_positions docBad ∧ ∃ s, getA p.attrs "DefaultCenter" = some s ∧
      ∃ e, parse_iso6709 s = .error e :=
    ⟨posBad, by show posBad ∈ [posBad]; exact List.mem_singleton.mpr rfl,
      "abc", rfl, .valueError "Invalid ISO 6709 coordinate format: abc", rfl⟩
  ⟨hpre, c3_fail_fast envC docBad hpre⟩

/-- C4: the walker selects exactly the `Position` elements that are direct
children of the root or of a root-level `Group`, root-level records first
then group-nested records, both in document order; a `Position` two
levels deep (`Group` inside `Group`) is never selected, and a successful
run leaves such a subtree untouched. -/
theorem c4_walker :
    (∀ (root p : XElem), p ∈ all_positions root ↔
      (p ∈ root.children ∧ p.tag = "Position") ∨
        ∃ g, g ∈ root.children ∧ g.tag = "Group" ∧ p ∈ g.children ∧ p.tag = "Position") ∧
    (∀ root : XElem, all_positions root =
      root.children.filter (fun c => c.tag = "Position") ++
        (root.children.filter (fun c => c.tag = "Group")).flatMap
          (fun g => g.children.filter (fun c => c.tag = "Position"))) ∧
    (∀ (env : Env) (root out : XElem) (n i j : ℕ),
      modify_positions_xml env root = .ok (out, n) →
      (root.children.getD i dfltX).tag = "Group" →
      ((root.children.getD i dfltX).children.getD j dfltX).tag = "Group" →
      (out.children.getD i dfltX).children.getD j dfltX =
        (root.children.getD i dfltX).children.getD j dfltX) := by
  refine ⟨fun root p => mem_all_positions, fun root => rfl, ?_⟩
  intro env root out n i j h hgi hgj
  obtain ⟨-, -, -, hlen, hspec⟩ := modify_ok_full h
  by_cases hi : i < root.children.length
  · obtain ⟨-, -, -, hj⟩ := (hspec i).2.2 hgi hi
    exact (hj j).1 (by rw [hgj]; decide)
  · exfalso
    rw [List.getD_eq_default] at hgi
    · exact absurd hgi (by decide)
    · omega

theorem c4_witness :
    modify_positions_xml envC docDeep = .ok (outDeep, 1) ∧
    (docDeep.children.getD 1 dfltX).tag = "Group" ∧
    ((docDeep.children.getD 1 dfltX).children.getD 0 dfltX).tag = "Group" ∧
    (outDeep.children.getD 1 dfltX).children.getD 0 dfltX =
      (docDeep.children.getD 1 dfltX).children.getD 0 dfltX :=
  ⟨run_docDeep, rfl, rfl, c4_walker.2.2 envC docDeep outDeep 1 1 0 run_docDeep rfl rfl⟩

/-- C9: a successful run adds or overwrites only `MagneticVariation` and
`Rotation` on selected records: the document's tag and attributes, every
record's tag, children and all other attributes, and every non-selected
element are unchanged. -/
theorem c9_frame :
    ∀ (env : Env) (root out : XElem) (n : ℕ),
      modify_positions_xml env root = .ok (out, n) →
      out.tag = root.tag ∧ out.attrs = root.attrs ∧
      out.children.length = root.children.length ∧
      ∀ i : ℕ,
        ((root.children.getD i dfltX).tag ≠ "Position" →
          (root.children.getD i dfltX).tag ≠ "Group" →
          out.children.getD i dfltX = root.children.getD i dfltX) ∧
        ((root.children.getD i dfltX).tag = "Position" → i < root.children.length →
          (out.children.getD i dfltX).tag = (root.children.getD i dfltX).tag ∧
          (out.children.getD i dfltX).children = (root.children.getD i dfltX).children ∧
          ∀ a, a ≠ "MagneticVariation" → a ≠ "Rotation" →
            getA (out.children.getD i dfltX).attrs a =
              getA (root.children.getD i dfltX).attrs a) ∧
        ((root.children.getD i dfltX).tag = "Group" → i < root.children.length →
          (out.children.getD i dfltX).tag = (root.children.getD i dfltX).tag ∧
          (out.children.getD i dfltX).attrs = (root.children.getD i dfltX).attrs ∧
          (out.children.getD i dfltX).children.length =
            (root.children.getD i dfltX).children.length ∧
          ∀ j : ℕ,
            (((root.children.getD i dfltX).children.getD j dfltX).tag ≠ "Position" →
              (out.children.getD i dfltX).children.getD j dfltX =
                (root.children.getD i dfltX).children.getD j dfltX) ∧
            (((root.children.getD i dfltX).children.getD j dfltX).tag = "Position" →
              j < (root.children.getD i dfltX).children.length →
              ((out.children.getD i dfltX).children.getD j dfltX).tag =
                ((root.children.getD i dfltX).children.getD j dfltX).tag ∧
              ((out.children.getD i dfltX).children.getD j dfltX).children =
                ((root.children.getD i dfltX).children.getD j dfltX).children ∧
              ∀ a, a ≠ "MagneticVariation" → a ≠ "Rotation" →
                getA ((out.children.getD i dfltX).children.getD j dfltX).attrs a =
                  getA ((root.children.getD i dfltX).children.getD j dfltX).attrs a)) := by
  intro env root out n h
  obtain ⟨h1, h2, -, hlen, hspec⟩ := modify_ok_full h
  refine ⟨h1, h2, hlen, fun i => ?_⟩
  refine ⟨(hspec i).1, fun hp hlt => ?_, fun hg hlt => ?_⟩
  · have ha := (hspec i).2.1 hp hlt
    obtain ⟨ht, hch, -, hother⟩ := annotatePosition_ok_shape ha
    exact ⟨ht, hch, hother⟩
  · obtain ⟨ht, hattrs, hclen, hj⟩ := (hspec i).2.2 hg hlt
    refine ⟨ht, hattrs, hclen, fun j => ?_⟩
    refine ⟨(hj j).1, fun hp hjlt => ?_⟩
    obtain ⟨k, ha⟩ := (hj j).2 hp hjlt
    obtain ⟨ht', hch', -, hother'⟩ := annotatePosition_ok_shape ha
    exact ⟨ht', hch', hother'⟩

theorem c9_witness :
    modify_positions_xml envC docGood = .ok (outGood, 1) ∧
    outGood.tag = docGood.tag ∧ outGood.attrs = docGood.attrs ∧
    outGood.children.length = docGood.children.length ∧
    getA (outGood.children.getD 0 dfltX).attrs "Name" =
      getA (docGood.children.getD 0 dfltX).attrs "Name" ∧
    getA (outGood.children.getD 0 dfltX).attrs "DefaultCenter" =
      getA (docGood.children.getD 0 dfltX).attrs "DefaultCenter" :=
  have h := c9_frame envC docGood outGood 1 run_docGood
  ⟨run_docGood, h.1, h.2.1, h.2.2.1,
    ((h.2.2.2 0).2.1 rfl (by decide)).2.2 "Name" (by decide) (by decide),
    ((h.2.2.2 0).2.1 rfl (by decide)).2.2 "DefaultCenter" (by decide) (by decide)⟩

/-- C7 counterexample: with a model that returns its decimal-year
argument and a clock that advances one year per read, two records with
identical input attributes end up with different `MagneticVariation`
values (`-2020.0` and `-2021.0`): each record's declination call reads
the clock afresh rather than receiving one shared per-run value. -/
theorem c7_counterexample :
    docTwo.children.getD 0 dfltX = docTwo.children.getD 1 dfltX ∧
    modify_positions_xml envTick docTwo = .ok (outTwo, 2) ∧
    getA (outTwo.children.getD 0 dfltX).attrs "MagneticVariation" = some "-2020.0" ∧
    getA (outTwo.children.getD 1 dfltX).attrs "MagneticVariation" = some "-2021.0" ∧
    to_year_fraction (envTick.today 0) ≠ to_year_fraction (envTick.today 1) := by
  refine ⟨rfl, run_docTwo, rfl, rfl, ?_⟩
  rw [show envTick.today 0 = ⟨2020, 1, 1, 0, 0, 0⟩ from rfl,
    show envTick.today 1 = ⟨2021, 1, 1, 0, 0, 0⟩ from rfl,
    to_year_fraction_jan1, to_year_fraction_jan1]
  norm_num

/-- C7 amended: the decimal year is read from the clock inside each
record's declination call (the `k`-th processed record uses the `k`-th
clock reading); the run behaves as if a single shared value were computed
once exactly when all clock readings coincide — with a constant clock the
pipeline is literally the same function. -/
theorem c7_amended_clock :
    ∀ (env : Env) (t : PyDateTime) (root : XElem), (∀ k, env.today k = t) →
      modify_positions_xml env root = modify_positions_xml ⟨env.decl, fun _ => t⟩ root := by
  intro env t root h
  have he : env = ⟨env.decl, fun _ => t⟩ := by
    obtain ⟨d, td⟩ := env
    simp only [Env.mk.injEq]
    exact ⟨trivial, funext h⟩
  rw [← he]

theorem c7_amended_witness :
    (∀ k, envC.today k = ⟨2025, 1, 1, 0, 0, 0⟩) ∧
    modify_positions_xml envC docGood =
      modify_positions_xml ⟨envC.decl, fun _ => ⟨2025, 1, 1, 0, 0, 0⟩⟩ docGood :=
  ⟨fun k => rfl, c7_amended_clock envC ⟨2025, 1, 1, 0, 0, 0⟩ docGood (fun k => rfl)⟩

/-- C10 counterexample: `docMixed` contains a selected `Position` with no
`DefaultCenter` attribute (its second record), yet the run's failure is
the grammar `ValueError` raised by the earlier malformed record — the
claim that the failure "is not the grammar FormatError" does not hold for
every such document. -/
theorem c10_counterexample :
    (docMixed.children.getD 1 dfltX).tag = "Position" ∧
    getA (docMixed.children.getD 1 dfltX).attrs "DefaultCenter" = none ∧
    docMixed.children.getD 1 dfltX ∈ all_positions docMixed ∧
    modify_positions_xml envC docMixed =
      .error (.valueError "Invalid ISO 6709 coordinate format: abc") := by
  refine ⟨rfl, rfl, ?_, rfl⟩
  show posNoCenter ∈ all_positions docMixed
  show posNoCenter ∈ [posBad, posNoCenter]
  exact List.mem_cons_of_mem _ (List.mem_singleton.mpr rfl)

/-- C10 amended: a document with a selected record lacking `DefaultCenter`
always fails before the file is rewritten; the failure raised at the
missing-attribute record itself is a `TypeError` (the `None` attribute
value, not a string, reaches the matcher), though the run's error can be
an earlier record's grammar `ValueError`. -/
theorem c10_amended_missing_attr :
    (∀ (env : Env) (root : XElem),
      (∃ p, p ∈ all_positions root ∧ getA p.attrs "DefaultCenter" = none) →
      ∃ e, modify_positions_xml env root = .error e) ∧
    (∀ (env : Env) (k : ℕ) (p : XElem), getA p.attrs "DefaultCenter" = none →
      ∃ m, annotatePosition env k p = .error (.typeError m)) := by
  constructor
  · rintro env root ⟨p, hmem, hattr⟩
    apply modify_error_of_bad_record hmem
      (e := PyErr.typeError "expected string or bytes-like object")
    unfold recordError
    rw [hattr]
    rfl
  · intro env k p hattr
    refine ⟨"expected string or bytes-like object", ?_⟩
    apply annotatePosition_error
    unfold recordError
    rw [hattr]
    rfl

theorem c10_amended_witness :
    (∃ p, p ∈ all_positions docNoCenter ∧ getA p.attrs "DefaultCenter" = none) ∧
    (∃ e, modify_positions_xml envC docNoCenter = .error e) ∧
    getA posNoCenter.attrs "DefaultCenter" = none ∧
    (∃ m, annotatePosition envC 0 posNoCenter = .error (.typeError m)) :=
  have hpre : ∃ p, p ∈ all_positions docNoCenter ∧ getA p.attrs "DefaultCenter" = none :=
    ⟨posNoCenter, by show posNoCenter ∈ [posNoCenter]; exact List.mem_singleton.mpr rfl, rfl⟩
  ⟨hpre, c10_amended_missing_attr.1 envC docNoCenter hpre, rfl,
    c10_amended_missing_attr.2 envC 0 posNoCenter rfl⟩
